import Mathlib

set_option maxHeartbeats 1000000

/-
Verification of the task-execution core of the Codex desktop app.

The repository ships the TypeScript frontend: `features/mvp/api.ts` (thin
`invoke` wrappers for the backend commands `run_task`, `cancel_task`,
`list_task_logs`, `set_max_parallel_tasks`, ...), `features/mvp/types.ts`
(the record shapes) and `state/app-store.ts` (the zustand store with the
`task:stdout` / `task:stderr` / `task:status` event handlers).  The Rust
backend that implements the scheduler, the process executor and the
permission gate is not part of the shipped sources, so that core is
modelled here from the specification (sections 3-7), while the store
event handlers are embedded directly from `app-store.ts`.
-/

namespace CodexCore

/-- Modelled from the spec: the lifecycle states of a Task (spec section 3);
`Succeeded`, `Failed` and `Cancelled` are terminal. -/
inductive TaskStatus where
| Queued
| Running
| Succeeded
| Failed
| Cancelled
deriving DecidableEq

/-- Modelled from the spec: a status is terminal when no further transition
may occur (spec glossary). -/
def TaskStatus.isTerminal : TaskStatus → Bool
| .Succeeded => true
| .Failed => true
| .Cancelled => true
| _ => false

/-- Modelled from the spec: the Task record of spec section 3.  The shipped
sources only declare its TypeScript mirror (`TaskRecord` in
`features/mvp/types.ts`); identifiers are opaque and modelled as `Nat`,
timestamps as `Nat` ticks of a logical clock. -/
structure Task where
  id : Nat
  threadId : Nat
  command : String
  cwd : String
  shell : String
  status : TaskStatus
  createdAt : Nat
  startedAt : Option Nat
  finishedAt : Option Nat
  exitCode : Option Int
deriving DecidableEq

/-- Modelled from the spec: one captured output line (`TaskLogLine`, spec
section 3).  The opaque per-line id and the capture timestamp are not
modelled: no claim mentions them, and the ordering invariant is carried by
the position in the append-only sink. -/
structure LogLine where
  taskId : Nat
  stream : String
  line : String
deriving DecidableEq

/-- Modelled from the spec: the thread-level execution policy consulted by
the permission gate (spec sections 3 and 4.1); the frontend sets it through
`setThreadPermission` in `features/mvp/api.ts`. -/
inductive PermissionMode where
| safe
| normal
| dangerConfirm
deriving DecidableEq

/-- Modelled from the spec: the whole mutable state owned by the scheduler
and the registry (spec sections 4.2, 4.3 and 5): the task registry in
creation order, the global FIFO waiting list of queued task ids, the
concurrency limit, the append-only log sink, the next fresh task id and a
logical clock. -/
structure SchedState where
  tasks : List Task
  waiting : List Nat
  limit : Nat
  logs : List LogLine
  nextId : Nat
  now : Nat
deriving DecidableEq

/-- Number of tasks currently in `Running` status. -/
def countRunning (ts : List Task) : Nat :=
  (ts.filter (fun t => t.status == TaskStatus.Running)).length

/-- Ids of the `Queued` tasks, in creation order. -/
def queuedIds (ts : List Task) : List Nat :=
  (ts.filter (fun t => t.status == TaskStatus.Queued)).map Task.id

/-- Modelled from the spec: the registry lookup `get(id)` (spec section 4.2). -/
def getTask (s : SchedState) (id : Nat) : Option Task :=
  s.tasks.find? (fun t => t.id == id)

/-- Status of a task by id, `none` when the id is unknown. -/
def statusOfTask (s : SchedState) (id : Nat) : Option TaskStatus :=
  (getTask s id).map Task.status

/-- Recorded exit code of a task by id (`none` when the id is unknown,
`some none` when the task exists but no code was recorded). -/
def exitCodeOf (s : SchedState) (id : Nat) : Option (Option Int) :=
  (getTask s id).map Task.exitCode

/-- Whether the task with this id exists and is `Running`. -/
def taskIsRunning (s : SchedState) (id : Nat) : Bool :=
  match getTask s id with
  | some t => t.status == TaskStatus.Running
  | none => false

/-- The ordered sub-sequence of the log sink belonging to one task. -/
def taskLogsFor (logs : List LogLine) (id : Nat) : List LogLine :=
  logs.filter (fun l => l.taskId == id)

/-- Modelled from the spec: the query `listTaskLogs(taskId)` returning the
captured lines in capture order (spec sections 4.5 and 6; the frontend
wrapper is `listTaskLogs` in `features/mvp/api.ts`). -/
def listTaskLogs (s : SchedState) (id : Nat) : List LogLine :=
  taskLogsFor s.logs id

/-- Holds when the pattern is an initial segment of the haystack. -/
def charsMatch : List Char → List Char → Bool
| _, [] => true
| [], _ :: _ => false
| c :: cs, p :: ps => c == p && charsMatch cs ps

/-- Holds when the pattern occurs contiguously in the haystack. -/
def charsContain : List Char → List Char → Bool
| [], pat => pat.isEmpty
| c :: rest, pat => charsMatch (c :: rest) pat || charsContain rest pat

/-- Modelled from the spec: the conservative destructive-command pattern set
(spec section 4.1: recursive delete, forced reset/checkout, format or
partition operations, process-kill-all, history rewrite). -/
def destructivePatterns : List String :=
  ["rm -rf", "rm -r ", "rmdir /s", "del /s", "del /f",
   "git reset --hard", "git checkout -f", "git push --force", "git push -f",
   "git filter-branch", "git clean -fd",
   "mkfs", "format c:", "diskpart",
   "taskkill /f", "killall"]

/-- Modelled from the spec: destructive classification is a pure function of
the command text (spec section 4.1). -/
def isDestructiveCommand (cmd : String) : Bool :=
  destructivePatterns.any (fun p => charsContain cmd.data p.data)

/-- Result of the permission gate; `Reject` carries the meaning of the
`PermissionRequired` error of the spec. -/
inductive GateResult where
| Allow
| Reject
deriving DecidableEq

/-- Modelled from the spec: the permission gate
`admit(threadId, command, confirmDestructive)` of spec section 4.1:
non-destructive commands always pass; `safe` rejects destructive commands
unconditionally; `normal` allows them; `danger-confirm` allows them only
with explicit confirmation. -/
def permissionGate (policy : PermissionMode) (command : String)
    (confirmDestructive : Bool) : GateResult :=
  if isDestructiveCommand command then
    match policy with
    | .safe => .Reject
    | .normal => .Allow
    | .dangerConfirm => if confirmDestructive then .Allow else .Reject
  else .Allow

/-- Modelled from the spec: the registry's guarded transition (spec section
4.2): only the task with the given id, and only when its current status is
`src`, is rewritten; any other move would be an `InvalidTransition` and
leaves the registry unchanged. -/
def setStatus (id : Nat) (src : TaskStatus) (f : Task → Task)
    (ts : List Task) : List Task :=
  ts.map (fun t => if t.id = id ∧ t.status = src then f t else t)

/-- Field update entering `Running`: `startedAt` is set on this transition
only (spec section 3). -/
def toRunning (now : Nat) (t : Task) : Task :=
  { t with status := .Running, startedAt := some now }

/-- Field update on normal process exit: records the exit code and the
terminal status, `Succeeded` exactly when the code is zero (spec section
4.4). -/
def toFinished (now : Nat) (code : Int) (t : Task) : Task :=
  { t with status := if code = 0 then .Succeeded else .Failed,
           exitCode := some code, finishedAt := some now }

/-- Field update on cancellation: the terminal status is `Cancelled`
regardless of any process exit code, and no exit code is recorded (spec
sections 4.3 and 8). -/
def toCancelled (now : Nat) (t : Task) : Task :=
  { t with status := .Cancelled, finishedAt := some now }

/-- Modelled from the spec: the synthetic non-zero exit code recorded on
spawn failure (spec sections 4.4 and 8). -/
def spawnFailureCode : Int := -1

/-- Field update on spawn failure: terminal `Failed` with the synthetic
non-zero code (spec section 4.4). -/
def toSpawnFailed (now : Nat) (t : Task) : Task :=
  { t with status := .Failed, exitCode := some spawnFailureCode,
           finishedAt := some now }

/-- Modelled from the spec: the only synchronous submission error (spec
section 7). -/
inductive SubmitError where
| PermissionRequired
deriving DecidableEq

/-- A freshly created task record: `Queued`, stamped with the current
logical time, no start, no finish, no exit code (spec section 3). -/
def newTask (s : SchedState) (threadId : Nat) (command cwd shell : String) : Task :=
  { id := s.nextId, threadId := threadId, command := command, cwd := cwd,
    shell := shell, status := .Queued, createdAt := s.now,
    startedAt := none, finishedAt := none, exitCode := none }

/-- Modelled from the spec: `submit` (backend command `run_task`, spec
section 4.3): the permission gate runs before any state is mutated; on
`Allow` the task is created and, when the running count is below the limit,
immediately admitted to `Running`, otherwise left `Queued` at the tail of
the waiting list. -/
def submitTask (policy : PermissionMode) (threadId : Nat)
    (command cwd shell : String) (confirmDestructive : Bool)
    (s : SchedState) : Except SubmitError (Task × SchedState) :=
  match permissionGate policy command confirmDestructive with
  | .Reject => .error .PermissionRequired
  | .Allow =>
    let base := newTask s threadId command cwd shell
    if countRunning s.tasks < s.limit then
      let t := { base with status := TaskStatus.Running, startedAt := some s.now }
      .ok (t, { s with
                  tasks := s.tasks ++ [t],
                  nextId := s.nextId + 1,
                  now := s.now + 1 })
    else
      .ok (base, { s with
                     tasks := s.tasks ++ [base],
                     waiting := s.waiting ++ [base.id],
                     nextId := s.nextId + 1,
                     now := s.now + 1 })

/-- Modelled from the spec: promotion of the head of the waiting list to
`Running` when there is room (spec section 4.3). -/
def promote (s : SchedState) : SchedState :=
  match s.waiting with
  | [] => s
  | h :: rest =>
    if countRunning s.tasks < s.limit then
      { s with waiting := rest,
               tasks := setStatus h .Queued (toRunning s.now) s.tasks }
    else s

/-- Modelled from the spec: the executor reports a normal process exit for a
running task (spec section 4.4); the terminal transition is followed by the
scheduler's promotion step (spec section 4.3). -/
def finishTask (id : Nat) (code : Int) (s : SchedState) : SchedState :=
  if taskIsRunning s id then
    promote { s with
                tasks := setStatus id .Running (toFinished s.now code) s.tasks,
                now := s.now + 1 }
  else s

/-- Modelled from the spec: spawn failure for an admitted task (spec section
4.4): terminal `Failed` with the synthetic code and a single synthetic
stderr line; `run_task` itself never throws for this, the failure is an
asynchronous executor event (spec section 7). -/
def spawnFailTask (id : Nat) (msg : String) (s : SchedState) : SchedState :=
  if taskIsRunning s id then
    promote { s with
                tasks := setStatus id .Running (toSpawnFailed s.now) s.tasks,
                logs := s.logs ++ [{ taskId := id, stream := "stderr", line := msg }],
                now := s.now + 1 }
  else s

/-- Modelled from the spec: the executor appends one completed output line
of a running task to the log sink (spec sections 4.4 and 4.5); only the
executor of a live process writes. -/
def emitLog (id : Nat) (stream line : String) (s : SchedState) : SchedState :=
  if taskIsRunning s id then
    { s with
        logs := s.logs ++ [{ taskId := id, stream := stream, line := line }],
        now := s.now + 1 }
  else s

/-- Modelled from the spec: the outcomes of `cancel` (spec sections 4.3 and
7). -/
inductive CancelResult where
| Ok
| TaskNotCancellable
| TaskNotFound
deriving DecidableEq

/-- Modelled from the spec: `cancel(taskId)` (backend command `cancel_task`,
spec section 4.3): a `Queued` task is removed from the waiting list and goes
straight to `Cancelled`; a `Running` task is terminated and goes to
`Cancelled` (then the scheduler promotes); a terminal task is a no-op
reported as `TaskNotCancellable`. -/
def cancelTask (id : Nat) (s : SchedState) : CancelResult × SchedState :=
  match getTask s id with
  | none => (.TaskNotFound, s)
  | some t =>
    match t.status with
    | .Queued =>
      (.Ok, { s with
                waiting := s.waiting.filter (fun w => !(w == id)),
                tasks := setStatus id .Queued (toCancelled s.now) s.tasks,
                now := s.now + 1 })
    | .Running =>
      (.Ok, promote { s with
                        tasks := setStatus id .Running (toCancelled s.now) s.tasks,
                        now := s.now + 1 })
    | _ => (.TaskNotCancellable, s)

/-- Modelled from the spec: `setConcurrencyLimit` (backend command
`set_max_parallel_tasks`, spec section 4.3): takes effect for future
admissions only and never preempts already-running tasks. -/
def setMaxParallelTasks (n : Nat) (s : SchedState) : SchedState :=
  { s with limit := n }

/-- One external or executor event applied to the scheduler state. -/
inductive Op where
| submit (policy : PermissionMode) (threadId : Nat)
    (command cwd shell : String) (confirmDestructive : Bool)
| cancel (id : Nat)
| finish (id : Nat) (code : Int)
| spawnFail (id : Nat) (msg : String)
| emit (id : Nat) (stream line : String)
| setLimit (n : Nat)
deriving DecidableEq

/-- Apply one operation; a rejected submission leaves the state unchanged
(spec section 4.1: zero side effects). -/
def applyOp (s : SchedState) : Op → SchedState
| .submit p th c cw sh cd =>
  match submitTask p th c cw sh cd s with
  | .error _ => s
  | .ok (_, s2) => s2
| .cancel id => (cancelTask id s).2
| .finish id code => finishTask id code s
| .spawnFail id msg => spawnFailTask id msg s
| .emit id st ln => emitLog id st ln s
| .setLimit n => setMaxParallelTasks n s

/-- The empty scheduler state with a configured concurrency limit. -/
def initState (limit : Nat) : SchedState :=
  { tasks := [], waiting := [], limit := limit, logs := [], nextId := 0, now := 0 }

/-- Run a whole sequence of operations. -/
def runOps (s : SchedState) (ops : List Op) : SchedState :=
  ops.foldl applyOp s

/-- A sequence of operations is limit-safe when every `setLimit` in it sets
the limit to at least the number of tasks running at that moment. -/
def safeOps (s : SchedState) : List Op → Bool
| [] => true
| op :: rest =>
  (match op with
   | .setLimit n => decide (countRunning s.tasks ≤ n)
   | _ => true) && safeOps (applyOp s op) rest

/-- The lines the process executor delivers to the log sink for one task
while running the given operation sequence, in delivery order. -/
def emitsFor (s : SchedState) (ops : List Op) (id : Nat) : List LogLine :=
  match ops with
  | [] => []
  | op :: rest =>
    (match op with
     | .emit i st ln =>
       if i = id ∧ taskIsRunning s i = true then
         [({ taskId := i, stream := st, line := ln } : LogLine)]
       else []
     | .spawnFail i msg =>
       if i = id ∧ taskIsRunning s i = true then
         [({ taskId := i, stream := "stderr", line := msg } : LogLine)]
       else []
     | _ => ([] : List LogLine)) ++ emitsFor (applyOp s op) rest id

/-- Modelled from the spec: the allowed single-step status moves of spec
section 3. -/
def validTransition : TaskStatus → TaskStatus → Bool
| .Queued, .Running => true
| .Queued, .Cancelled => true
| .Running, .Succeeded => true
| .Running, .Failed => true
| .Running, .Cancelled => true
| _, _ => false

/-- A status either stays put or takes one allowed edge. -/
def stepOK (a b : TaskStatus) : Prop :=
  b = a ∨ validTransition a b = true

/-- The structural invariant of reachable scheduler states: the waiting list
is exactly the queued tasks in creation order, task ids are distinct and
below the fresh-id counter, log lines refer to created tasks, tasks that
never started carry no exit code and no logs, running tasks have a start
time, and creation timestamps strictly increase along the registry. -/
structure Inv (s : SchedState) : Prop where
  waitEq : s.waiting = queuedIds s.tasks
  nodup : (s.tasks.map Task.id).Nodup
  bound : ∀ t ∈ s.tasks, t.id < s.nextId
  logsBound : ∀ l ∈ s.logs, l.taskId < s.nextId
  fresh : ∀ t ∈ s.tasks,
    (t.status = .Queued ∨ (t.status = .Cancelled ∧ t.startedAt = none)) →
    t.startedAt = none ∧ t.exitCode = none ∧ taskLogsFor s.logs t.id = []
  runningStarted : ∀ t ∈ s.tasks, t.status = .Running → t.startedAt ≠ none
  sorted : s.tasks.Pairwise (fun a b => a.createdAt < b.createdAt)
  createdLt : ∀ t ∈ s.tasks, t.createdAt < s.now

/-- A task that was cancelled before ever starting: `Cancelled`, never
started, no exit code, no log lines. -/
def CancelFresh (s : SchedState) (id : Nat) : Prop :=
  ∃ t, getTask s id = some t ∧ t.status = .Cancelled ∧ t.startedAt = none ∧
    t.exitCode = none ∧ taskLogsFor s.logs id = []

end CodexCore

namespace CodexStore

/-- The `TaskRecord` shape of `features/mvp/types.ts`. -/
structure TaskRecord where
  id : String
  threadId : String
  command : String
  cwd : String
  shell : String
  status : String
  createdAt : Nat
  startedAt : Option Nat
  finishedAt : Option Nat
  exitCode : Option Int
deriving DecidableEq

/-- The `TaskLogRecord` shape of `features/mvp/types.ts`. -/
structure TaskLogRecord where
  id : String
  taskId : String
  stream : String
  line : String
  createdAt : Nat
deriving DecidableEq

/-- The `TaskStatusEvent` payload shape of `features/mvp/types.ts`. -/
structure TaskStatusEvent where
  taskId : String
  threadId : String
  status : String
  exitCode : Option Int
deriving DecidableEq

/-- The `TaskLogEvent` payload shape of `features/mvp/types.ts`. -/
structure TaskLogEvent where
  taskId : String
  threadId : String
  stream : String
  line : String
deriving DecidableEq

/-- The slice of the zustand store of `state/app-store.ts` that the task
event handlers read and write. -/
structure StoreState where
  tasks : List TaskRecord
  activeThreadId : String
  selectedTaskId : String
  taskLogs : List TaskLogRecord
  statusText : String
deriving DecidableEq

/-- The `task:status` listener installed in `init` of `state/app-store.ts`:
payloads for a non-active thread are ignored; otherwise the task whose id
matches the payload gets the payload's status and exit code and the status
text is updated. -/
def onTaskStatus (ev : TaskStatusEvent) (s : StoreState) : StoreState :=
  if ev.threadId ≠ s.activeThreadId then s
  else
    { s with
      tasks := s.tasks.map (fun t =>
        if t.id = ev.taskId then
          { t with status := ev.status, exitCode := ev.exitCode }
        else t),
      statusText := "Task " ++ ev.taskId ++ " -> " ++ ev.status }

/-- The `task:stdout` and `task:stderr` listeners installed in `init` of
`state/app-store.ts` (both have identical bodies): payloads for a
non-active thread are ignored; the selected task id defaults to the
payload's task id when empty (the JavaScript `||` on strings); payloads for
a non-selected task are ignored; otherwise one `TaskLogRecord` is appended.
The record id is built in the source from `Date.now()` and `Math.random()`,
modelled here by the `now` and `rand` parameters. -/
def onTaskLog (now : Nat) (rand : String) (ev : TaskLogEvent) (s : StoreState) : StoreState :=
  if ev.threadId ≠ s.activeThreadId then s
  else
    let selectedTaskId := if s.selectedTaskId = "" then ev.taskId else s.selectedTaskId
    if selectedTaskId ≠ ev.taskId then s
    else
      { s with
        taskLogs := s.taskLogs ++
          [{ id := ev.taskId ++ "-" ++ toString now ++ "-" ++ rand,
             taskId := ev.taskId, stream := ev.stream, line := ev.line,
             createdAt := now }] }

end CodexStore

namespace CodexCore

theorem find?_append_of_some {α : Type} {p : α → Bool} {ts l : List α} {t : α}
    (h : ts.find? p = some t) : (ts ++ l).find? p = some t := by
  induction ts with
  | nil => simp [List.find?] at h
  | cons hd tl ih =>
    by_cases hp : p hd
    · simp [List.find?_cons_of_pos, hp] at h ⊢
      exact h
    · simp only [List.cons_append, List.find?_cons_of_neg, hp] at h ⊢
      rw [List.find?_cons_of_neg _ (by simp [hp])] at h ⊢
      exact ih h

theorem find?_map_comm {α : Type} (g : α → α) (p : α → Bool)
    (hg : ∀ t, p (g t) = p t) (ts : List α) :
    (ts.map g).find? p = (ts.find? p).map g := by
  induction ts with
  | nil => rfl
  | cons hd tl ih =>
    by_cases hp : p hd
    · rw [List.map_cons, List.find?_cons_of_pos _ (by rw [hg]; exact hp),
          List.find?_cons_of_pos _ hp]
      rfl
    · rw [List.map_cons, List.find?_cons_of_neg _ (by rw [hg]; simp [hp]),
          List.find?_cons_of_neg _ (by simp [hp])]
      exact ih

theorem mem_of_find?_id {ts : List Task} {id : Nat} {t : Task}
    (h : ts.find? (fun t => t.id == id) = some t) : t ∈ ts ∧ t.id = id := by
  have hmem := List.mem_of_find?_eq_some h
  have hp := List.find?_some h
  simp only [beq_iff_eq] at hp
  exact ⟨hmem, hp⟩

theorem eq_of_id_nodup {ts : List Task} (hnd : (ts.map Task.id).Nodup)
    {a b : Task} (ha : a ∈ ts) (hb : b ∈ ts) (hid : a.id = b.id) : a = b := by
  induction ts with
  | nil => cases ha
  | cons hd tl ih =>
    rw [List.map_cons, List.nodup_cons] at hnd
    rcases List.mem_cons.mp ha with rfl | ha2
    · rcases List.mem_cons.mp hb with rfl | hb2
      · rfl
      · exact absurd (hid ▸ List.mem_map_of_mem Task.id hb2) hnd.1
    · rcases List.mem_cons.mp hb with rfl | hb2
      · exact absurd (hid ▸ List.mem_map_of_mem Task.id ha2) hnd.1
      · exact ih hnd.2 ha2 hb2

theorem nodup_concat_of {α : Type} {l : List α} {a : α}
    (hl : l.Nodup) (ha : a ∉ l) : (l ++ [a]).Nodup := by
  rw [List.nodup_append]
  exact ⟨hl, List.nodup_singleton a, by simp [ha]⟩

end CodexCore

namespace CodexCore

@[simp] theorem toRunning_id (n : Nat) (t : Task) : (toRunning n t).id = t.id := rfl

@[simp] theorem toRunning_status (n : Nat) (t : Task) : (toRunning n t).status = .Running := rfl

@[simp] theorem toRunning_createdAt (n : Nat) (t : Task) : (toRunning n t).createdAt = t.createdAt := rfl

@[simp] theorem toRunning_startedAt (n : Nat) (t : Task) : (toRunning n t).startedAt = some n := rfl

@[simp] theorem toFinished_id (n : Nat) (c : Int) (t : Task) : (toFinished n c t).id = t.id := rfl

@[simp] theorem toFinished_status (n : Nat) (c : Int) (t : Task) :
    (toFinished n c t).status = if c = 0 then .Succeeded else .Failed := rfl

@[simp] theorem toFinished_createdAt (n : Nat) (c : Int) (t : Task) :
    (toFinished n c t).createdAt = t.createdAt := rfl

@[simp] theorem toFinished_startedAt (n : Nat) (c : Int) (t : Task) :
    (toFinished n c t).startedAt = t.startedAt := rfl

@[simp] theorem toFinished_exitCode (n : Nat) (c : Int) (t : Task) :
    (toFinished n c t).exitCode = some c := rfl

@[simp] theorem toCancelled_id (n : Nat) (t : Task) : (toCancelled n t).id = t.id := rfl

@[simp] theorem toCancelled_status (n : Nat) (t : Task) : (toCancelled n t).status = .Cancelled := rfl

@[simp] theorem toCancelled_createdAt (n : Nat) (t : Task) : (toCancelled n t).createdAt = t.createdAt := rfl

@[simp] theorem toCancelled_startedAt (n : Nat) (t : Task) : (toCancelled n t).startedAt = t.startedAt := rfl

@[simp] theorem toCancelled_exitCode (n : Nat) (t : Task) : (toCancelled n t).exitCode = t.exitCode := rfl

@[simp] theorem toSpawnFailed_id (n : Nat) (t : Task) : (toSpawnFailed n t).id = t.id := rfl

@[simp] theorem toSpawnFailed_status (n : Nat) (t : Task) : (toSpawnFailed n t).status = .Failed := rfl

@[simp] theorem toSpawnFailed_createdAt (n : Nat) (t : Task) : (toSpawnFailed n t).createdAt = t.createdAt := rfl

@[simp] theorem toSpawnFailed_startedAt (n : Nat) (t : Task) : (toSpawnFailed n t).startedAt = t.startedAt := rfl

@[simp] theorem toSpawnFailed_exitCode (n : Nat) (t : Task) : (toSpawnFailed n t).exitCode = some spawnFailureCode := rfl

theorem setStatus_map_id (id : Nat) (src : TaskStatus) (f : Task → Task)
    (hf : ∀ t, (f t).id = t.id) (ts : List Task) :
    (setStatus id src f ts).map Task.id = ts.map Task.id := by
  induction ts with
  | nil => rfl
  | cons hd tl ih =>
    simp only [setStatus, List.map_cons] at ih ⊢
    rw [ih]
    by_cases h : hd.id = id ∧ hd.status = src
    · simp [h, hf]
    · simp [h]

theorem getTask_setStatus (id' : Nat) (src : TaskStatus) (f : Task → Task)
    (hf : ∀ t, (f t).id = t.id) (ts : List Task) (id : Nat) :
    (setStatus id' src f ts).find? (fun t => t.id == id) =
      (ts.find? (fun t => t.id == id)).map
        (fun t => if t.id = id' ∧ t.status = src then f t else t) := by
  apply find?_map_comm
  intro t
  by_cases h : t.id = id' ∧ t.status = src <;> simp [h, hf]

theorem setStatus_eq_of_no_match (id : Nat) (src : TaskStatus) (f : Task → Task)
    (ts : List Task) (h : ∀ t ∈ ts, ¬(t.id = id ∧ t.status = src)) :
    setStatus id src f ts = ts := by
  induction ts with
  | nil => rfl
  | cons hd tl ih =>
    simp only [setStatus, List.map_cons]
    rw [if_neg (h hd (List.mem_cons_self hd tl))]
    have := ih (fun t ht => h t (List.mem_cons_of_mem hd ht))
    simp only [setStatus] at this
    rw [this]

theorem mem_setStatus {ts : List Task} {id : Nat} {src : TaskStatus} {f : Task → Task}
    {t' : Task} (h : t' ∈ setStatus id src f ts) :
    ∃ t ∈ ts, t' = (if t.id = id ∧ t.status = src then f t else t) := by
  simp only [setStatus, List.mem_map] at h
  rcases h with ⟨t, ht, heq⟩
  exact ⟨t, ht, heq.symm⟩

theorem countRunning_append_one (ts : List Task) (t : Task) :
    countRunning (ts ++ [t]) = countRunning ts + (if t.status = .Running then 1 else 0) := by
  simp only [countRunning, List.filter_append, List.length_append]
  by_cases h : t.status = .Running
  · simp [h, List.filter]
  · have hb : (t.status == TaskStatus.Running) = false := beq_eq_false_iff_ne.mpr h
    simp [List.filter, hb, h]

theorem countRunning_setStatus_of_src_ne (id : Nat) (src : TaskStatus) (f : Task → Task)
    (hsrc : src ≠ .Running) (hf : ∀ t, (f t).status ≠ .Running) (ts : List Task) :
    countRunning (setStatus id src f ts) = countRunning ts := by
  induction ts with
  | nil => rfl
  | cons hd tl ih =>
    simp only [setStatus, List.map_cons] at ih ⊢
    by_cases h : hd.id = id ∧ hd.status = src
    · rw [if_pos h]
      have h1 : ¬((f hd).status == TaskStatus.Running) = true := by
        simp [beq_iff_eq, hf hd]
      have h2 : ¬(hd.status == TaskStatus.Running) = true := by
        simp [beq_iff_eq, h.2, hsrc]
      simp only [countRunning, List.filter] at ih ⊢
      rw [Bool.eq_false_iff.mpr h1, Bool.eq_false_iff.mpr h2] at *
      simpa using ih
    · rw [if_neg h]
      simp only [countRunning, List.filter] at ih ⊢
      cases hb : (hd.status == TaskStatus.Running) <;> simpa [hb] using ih

end CodexCore

namespace CodexCore

theorem setStatus_cons (id : Nat) (src : TaskStatus) (f : Task → Task)
    (hd : Task) (tl : List Task) :
    setStatus id src f (hd :: tl) =
      (if hd.id = id ∧ hd.status = src then f hd else hd) :: setStatus id src f tl := rfl

theorem countRunning_cons (hd : Task) (tl : List Task) :
    countRunning (hd :: tl) = countRunning tl + (if hd.status = .Running then 1 else 0) := by
  by_cases h : hd.status = .Running
  · simp [countRunning, List.filter, h]
  · have hb : (hd.status == TaskStatus.Running) = false := beq_eq_false_iff_ne.mpr h
    simp [countRunning, List.filter, hb, h]

theorem countRunning_setStatus_succ (id : Nat) (f : Task → Task)
    (hf : ∀ t, (f t).status = .Running) (ts : List Task)
    (hnd : (ts.map Task.id).Nodup)
    (hex : ∃ t ∈ ts, t.id = id ∧ t.status = .Queued) :
    countRunning (setStatus id .Queued f ts) = countRunning ts + 1 := by
  induction ts with
  | nil => rcases hex with ⟨t, ht, _⟩; cases ht
  | cons hd tl ih =>
    rw [List.map_cons, List.nodup_cons] at hnd
    rw [setStatus_cons, countRunning_cons, countRunning_cons]
    by_cases hg : hd.id = id ∧ hd.status = .Queued
    · rw [if_pos hg]
      have htl : setStatus id .Queued f tl = tl := by
        apply setStatus_eq_of_no_match
        intro t ht hc
        exact hnd.1 (hg.1 ▸ hc.1 ▸ List.mem_map_of_mem Task.id ht)
      rw [htl]
      simp [hf hd, hg.2]
    · rw [if_neg hg]
      have hex2 : ∃ t ∈ tl, t.id = id ∧ t.status = .Queued := by
        rcases hex with ⟨t, ht, hp⟩
        rcases List.mem_cons.mp ht with rfl | h2
        · exact absurd hp hg
        · exact ⟨t, h2, hp⟩
      rw [ih hnd.2 hex2]
      omega

theorem countRunning_setStatus_pred (id : Nat) (f : Task → Task)
    (hf : ∀ t, (f t).status ≠ .Running) (ts : List Task)
    (hnd : (ts.map Task.id).Nodup)
    (hex : ∃ t ∈ ts, t.id = id ∧ t.status = .Running) :
    countRunning (setStatus id .Running f ts) + 1 = countRunning ts := by
  induction ts with
  | nil => rcases hex with ⟨t, ht, _⟩; cases ht
  | cons hd tl ih =>
    rw [List.map_cons, List.nodup_cons] at hnd
    rw [setStatus_cons, countRunning_cons, countRunning_cons]
    by_cases hg : hd.id = id ∧ hd.status = .Running
    · rw [if_pos hg]
      have htl : setStatus id .Running f tl = tl := by
        apply setStatus_eq_of_no_match
        intro t ht hc
        exact hnd.1 (hg.1 ▸ hc.1 ▸ List.mem_map_of_mem Task.id ht)
      rw [htl]
      simp [hf hd, hg.2]
    · rw [if_neg hg]
      have hex2 : ∃ t ∈ tl, t.id = id ∧ t.status = .Running := by
        rcases hex with ⟨t, ht, hp⟩
        rcases List.mem_cons.mp ht with rfl | h2
        · exact absurd hp hg
        · exact ⟨t, h2, hp⟩
      rw [← ih hnd.2 hex2]
      omega

theorem queuedIds_cons (hd : Task) (tl : List Task) :
    queuedIds (hd :: tl) =
      (if hd.status = .Queued then [hd.id] else []) ++ queuedIds tl := by
  by_cases h : hd.status = .Queued
  · simp [queuedIds, List.filter, h]
  · have hb : (hd.status == TaskStatus.Queued) = false := beq_eq_false_iff_ne.mpr h
    simp [queuedIds, List.filter, hb, h]

theorem queuedIds_append_one (ts : List Task) (t : Task) :
    queuedIds (ts ++ [t]) =
      queuedIds ts ++ (if t.status = .Queued then [t.id] else []) := by
  by_cases h : t.status = .Queued
  · simp [queuedIds, List.filter_append, List.filter, h]
  · have hb : (t.status == TaskStatus.Queued) = false := beq_eq_false_iff_ne.mpr h
    simp [queuedIds, List.filter_append, List.filter, hb, h]

theorem queuedIds_setStatus_of_ne (id : Nat) (src : TaskStatus) (f : Task → Task)
    (hsrc : src ≠ .Queued) (hf : ∀ t, (f t).status ≠ .Queued) (ts : List Task) :
    queuedIds (setStatus id src f ts) = queuedIds ts := by
  induction ts with
  | nil => rfl
  | cons hd tl ih =>
    rw [setStatus_cons, queuedIds_cons, queuedIds_cons, ih]
    by_cases hg : hd.id = id ∧ hd.status = src
    · rw [if_pos hg]
      simp [hf hd, hg.2, hsrc]
    · rw [if_neg hg]

theorem queuedIds_setStatus_fromQueued (id : Nat) (f : Task → Task)
    (hf : ∀ t, (f t).status ≠ .Queued) (ts : List Task) :
    queuedIds (setStatus id .Queued f ts) =
      (queuedIds ts).filter (fun x => !(x == id)) := by
  induction ts with
  | nil => rfl
  | cons hd tl ih =>
    rw [setStatus_cons, queuedIds_cons, queuedIds_cons, List.filter_append, ← ih]
    by_cases hg : hd.id = id ∧ hd.status = .Queued
    · rw [if_pos hg]
      simp [hf hd, hg.2, hg.1]
    · rw [if_neg hg]
      by_cases hq : hd.status = .Queued
      · have hid : hd.id ≠ id := fun hc => hg ⟨hc, hq⟩
        have hbe : (hd.id == id) = false := beq_eq_false_iff_ne.mpr hid
        simp [hq, hbe]
      · simp [hq]

theorem filter_bne_eq_self {l : List Nat} {id : Nat} (h : id ∉ l) :
    l.filter (fun x => !(x == id)) = l := by
  induction l with
  | nil => rfl
  | cons hd tl ih =>
    have hne : hd ≠ id := fun hc => h (hc ▸ List.mem_cons_self hd tl)
    have hbe : (hd == id) = false := beq_eq_false_iff_ne.mpr hne
    simp only [List.filter, hbe, Bool.not_false]
    rw [ih (fun hm => h (List.mem_cons_of_mem hd hm))]

theorem pairwise_setStatus (id : Nat) (src : TaskStatus) (f : Task → Task)
    (hf : ∀ t, (f t).createdAt = t.createdAt) (ts : List Task)
    (h : ts.Pairwise (fun a b => a.createdAt < b.createdAt)) :
    (setStatus id src f ts).Pairwise (fun a b => a.createdAt < b.createdAt) := by
  unfold setStatus
  rw [List.pairwise_map]
  refine h.imp ?_
  intro a b hab
  by_cases ha : a.id = id ∧ a.status = src <;>
    by_cases hb : b.id = id ∧ b.status = src <;>
      simp [ha, hb, hf, hab]

theorem taskLogsFor_append (l1 l2 : List LogLine) (id : Nat) :
    taskLogsFor (l1 ++ l2) id = taskLogsFor l1 id ++ taskLogsFor l2 id := by
  simp [taskLogsFor, List.filter_append]

theorem taskLogsFor_eq_nil {logs : List LogLine} {id : Nat}
    (h : ∀ l ∈ logs, l.taskId ≠ id) : taskLogsFor logs id = [] := by
  induction logs with
  | nil => rfl
  | cons hd tl ih =>
    have hbe : (hd.taskId == id) = false :=
      beq_eq_false_iff_ne.mpr (h hd (List.mem_cons_self hd tl))
    simp only [taskLogsFor, List.filter, hbe]
    exact ih (fun l hl => h l (List.mem_cons_of_mem hd hl))

theorem taskLogsFor_single_eq (id : Nat) (st ln : String) :
    taskLogsFor [{ taskId := id, stream := st, line := ln }] id =
      [{ taskId := id, stream := st, line := ln }] := by
  simp [taskLogsFor, List.filter]

theorem mem_queuedIds {ts : List Task} {h : Nat} :
    h ∈ queuedIds ts ↔ ∃ t ∈ ts, t.id = h ∧ t.status = .Queued := by
  simp only [queuedIds, List.mem_map, List.mem_filter, beq_iff_eq]
  constructor
  · rintro ⟨t, ⟨ht, hs⟩, hid⟩
    exact ⟨t, ht, hid, hs⟩
  · rintro ⟨t, ht, hid, hs⟩
    exact ⟨t, ⟨ht, hs⟩, hid⟩

theorem queuedIds_nodup {ts : List Task} (hnd : (ts.map Task.id).Nodup) :
    (queuedIds ts).Nodup := by
  have hsub : (ts.filter (fun t => t.status == TaskStatus.Queued)).Sublist ts :=
    List.filter_sublist ts
  exact hnd.sublist (hsub.map Task.id)

end CodexCore

namespace CodexCore

theorem getTask_mem {s : SchedState} {id : Nat} {t : Task}
    (h : getTask s id = some t) : t ∈ s.tasks ∧ t.id = id :=
  mem_of_find?_id h

theorem taskIsRunning_iff {s : SchedState} {id : Nat} :
    taskIsRunning s id = true ↔ ∃ t, getTask s id = some t ∧ t.status = .Running := by
  unfold taskIsRunning
  cases h : getTask s id with
  | none => simp
  | some t => simp [beq_iff_eq]

theorem nextId_not_mem {s : SchedState} (hInv : Inv s) :
    s.nextId ∉ s.tasks.map Task.id := by
  intro hmem
  rcases List.mem_map.mp hmem with ⟨t, ht, hid⟩
  have hb := hInv.bound t ht
  omega

theorem inv_promoteCore {s : SchedState} {h : Nat} {rest : List Nat}
    (hInv : Inv s) (hw : s.waiting = h :: rest) :
    Inv { s with waiting := rest,
                 tasks := setStatus h .Queued (toRunning s.now) s.tasks } := by
  obtain ⟨hwEq, hnd, hbound, hlogsB, hfresh, hrs, hsort, hclt⟩ := hInv
  have hq : queuedIds s.tasks = h :: rest := hwEq.symm.trans hw
  have hqnd : (h :: rest).Nodup := hq ▸ queuedIds_nodup hnd
  have hnotmem : h ∉ rest := (List.nodup_cons.mp hqnd).1
  constructor
  · show rest = queuedIds (setStatus h .Queued (toRunning s.now) s.tasks)
    rw [queuedIds_setStatus_fromQueued h (toRunning s.now) (by intro t; simp) s.tasks, hq]
    have hbe : (h == h) = true := beq_self_eq_true h
    simp only [List.filter, hbe, Bool.not_true]
    exact (filter_bne_eq_self hnotmem).symm
  · show ((setStatus h .Queued (toRunning s.now) s.tasks).map Task.id).Nodup
    rw [setStatus_map_id h .Queued (toRunning s.now) (by intro t; rfl) s.tasks]
    exact hnd
  · intro t' ht'
    rcases mem_setStatus ht' with ⟨t, ht, heq⟩
    by_cases hg : t.id = h ∧ t.status = .Queued
    · rw [heq, if_pos hg]; exact hbound t ht
    · rw [heq, if_neg hg]; exact hbound t ht
  · exact hlogsB
  · intro t' ht' hcase
    rcases mem_setStatus ht' with ⟨t, ht, heq⟩
    by_cases hg : t.id = h ∧ t.status = .Queued
    · rw [heq, if_pos hg] at hcase
      rcases hcase with hc1 | hc2
      · simp at hc1
      · simp at hc2
    · rw [heq, if_neg hg] at hcase ⊢
      exact hfresh t ht hcase
  · intro t' ht' hrun2
    rcases mem_setStatus ht' with ⟨t, ht, heq⟩
    by_cases hg : t.id = h ∧ t.status = .Queued
    · rw [heq, if_pos hg]; simp
    · rw [heq, if_neg hg] at hrun2 ⊢
      exact hrs t ht hrun2
  · exact pairwise_setStatus h .Queued (toRunning s.now) (by intro t; rfl) s.tasks hsort
  · intro t' ht'
    rcases mem_setStatus ht' with ⟨t, ht, heq⟩
    by_cases hg : t.id = h ∧ t.status = .Queued
    · rw [heq, if_pos hg]; exact hclt t ht
    · rw [heq, if_neg hg]; exact hclt t ht

theorem inv_promote {s : SchedState} (hInv : Inv s) : Inv (promote s) := by
  unfold promote
  cases hw : s.waiting with
  | nil => exact hInv
  | cons h rest =>
    show Inv (if countRunning s.tasks < s.limit then
        { s with waiting := rest,
                 tasks := setStatus h .Queued (toRunning s.now) s.tasks } else s)
    by_cases hc : countRunning s.tasks < s.limit
    · rw [if_pos hc]
      exact inv_promoteCore hInv hw
    · rw [if_neg hc]
      exact hInv

end CodexCore

namespace CodexCore

theorem inv_terminalCore {s : SchedState} {id : Nat} (f : Task → Task) (logs2 : List LogLine)
    (hfid : ∀ t, (f t).id = t.id)
    (hfc : ∀ t, (f t).createdAt = t.createdAt)
    (hfq : ∀ t, (f t).status ≠ .Queued)
    (hfr : ∀ t, (f t).status ≠ .Running)
    (hfs : ∀ t, (f t).startedAt = t.startedAt)
    (hInv : Inv s) (hrun : taskIsRunning s id = true)
    (hlogs2 : ∀ l ∈ logs2, l.taskId = id) :
    Inv { s with tasks := setStatus id .Running f s.tasks,
                 logs := s.logs ++ logs2, now := s.now + 1 } := by
  obtain ⟨t0, hget0, hst0⟩ := taskIsRunning_iff.mp hrun
  obtain ⟨hmem0, hid0⟩ := getTask_mem hget0
  obtain ⟨hwEq, hnd, hbound, hlogsB, hfresh, hrs, hsort, hclt⟩ := hInv
  constructor
  · show s.waiting = queuedIds (setStatus id .Running f s.tasks)
    rw [queuedIds_setStatus_of_ne id .Running f (by intro hc; cases hc) hfq s.tasks]
    exact hwEq
  · show ((setStatus id .Running f s.tasks).map Task.id).Nodup
    rw [setStatus_map_id id .Running f hfid s.tasks]
    exact hnd
  · intro t' ht'
    rcases mem_setStatus ht' with ⟨t, ht, heq⟩
    by_cases hg : t.id = id ∧ t.status = .Running
    · rw [heq, if_pos hg, hfid]; exact hbound t ht
    · rw [heq, if_neg hg]; exact hbound t ht
  · intro l hl
    rcases List.mem_append.mp hl with h1 | h2
    · exact hlogsB l h1
    · rw [hlogs2 l h2, ← hid0]
      exact hbound t0 hmem0
  · intro t' ht' hcase
    rcases mem_setStatus ht' with ⟨t, ht, heq⟩
    by_cases hg : t.id = id ∧ t.status = .Running
    · exfalso
      rw [heq, if_pos hg] at hcase
      rcases hcase with hc1 | hc2
      · exact hfq (t := t) hc1
      · rw [hfs] at hc2
        exact hrs t ht hg.2 hc2.2
    · rw [heq, if_neg hg] at hcase ⊢
      have hold := hfresh t ht hcase
      refine ⟨hold.1, hold.2.1, ?_⟩
      rw [taskLogsFor_append, hold.2.2]
      have hne : t.id ≠ id := by
        intro hc
        have : t = t0 := eq_of_id_nodup hnd ht hmem0 (hc.trans hid0.symm)
        rcases hcase with hq1 | hq2
        · rw [this, hst0] at hq1; cases hq1
        · rw [this, hst0] at hq2; exact absurd hq2.1 (by simp)
      rw [taskLogsFor_eq_nil (fun l hl2 => by rw [hlogs2 l hl2]; exact fun hc => hne hc.symm)]
      rfl
  · intro t' ht' hrun2
    rcases mem_setStatus ht' with ⟨t, ht, heq⟩
    by_cases hg : t.id = id ∧ t.status = .Running
    · exfalso
      rw [heq, if_pos hg] at hrun2
      exact hfr (t := t) hrun2
    · rw [heq, if_neg hg] at hrun2 ⊢
      exact hrs t ht hrun2
  · exact pairwise_setStatus id .Running f hfc s.tasks hsort
  · intro t' ht'
    rcases mem_setStatus ht' with ⟨t, ht, heq⟩
    have hlt : t.createdAt < s.now := hclt t ht
    show t'.createdAt < s.now + 1
    by_cases hg : t.id = id ∧ t.status = .Running
    · rw [heq, if_pos hg, hfc]; omega
    · rw [heq, if_neg hg]; omega

theorem inv_cancelQueuedCore {s : SchedState} {id : Nat} (hInv : Inv s) :
    Inv { s with waiting := s.waiting.filter (fun w => !(w == id)),
                 tasks := setStatus id .Queued (toCancelled s.now) s.tasks,
                 now := s.now + 1 } := by
  obtain ⟨hwEq, hnd, hbound, hlogsB, hfresh, hrs, hsort, hclt⟩ := hInv
  constructor
  · show s.waiting.filter (fun w => !(w == id)) =
      queuedIds (setStatus id .Queued (toCancelled s.now) s.tasks)
    rw [queuedIds_setStatus_fromQueued id (toCancelled s.now) (by intro t; simp) s.tasks, hwEq]
  · show ((setStatus id .Queued (toCancelled s.now) s.tasks).map Task.id).Nodup
    rw [setStatus_map_id id .Queued (toCancelled s.now) (by intro t; rfl) s.tasks]
    exact hnd
  · intro t' ht'
    rcases mem_setStatus ht' with ⟨t, ht, heq⟩
    by_cases hg : t.id = id ∧ t.status = .Queued
    · rw [heq, if_pos hg]; exact hbound t ht
    · rw [heq, if_neg hg]; exact hbound t ht
  · exact hlogsB
  · intro t' ht' hcase
    rcases mem_setStatus ht' with ⟨t, ht, heq⟩
    by_cases hg : t.id = id ∧ t.status = .Queued
    · have hold := hfresh t ht (Or.inl hg.2)
      rw [heq, if_pos hg]
      exact ⟨hold.1, hold.2.1, hold.2.2⟩
    · rw [heq, if_neg hg] at hcase ⊢
      exact hfresh t ht hcase
  · intro t' ht' hrun2
    rcases mem_setStatus ht' with ⟨t, ht, heq⟩
    by_cases hg : t.id = id ∧ t.status = .Queued
    · exfalso
      rw [heq, if_pos hg] at hrun2
      cases hrun2
    · rw [heq, if_neg hg] at hrun2 ⊢
      exact hrs t ht hrun2
  · exact pairwise_setStatus id .Queued (toCancelled s.now) (by intro t; rfl) s.tasks hsort
  · intro t' ht'
    rcases mem_setStatus ht' with ⟨t, ht, heq⟩
    have hlt : t.createdAt < s.now := hclt t ht
    show t'.createdAt < s.now + 1
    by_cases hg : t.id = id ∧ t.status = .Queued
    · rw [heq, if_pos hg]
      show t.createdAt < s.now + 1
      omega
    · rw [heq, if_neg hg]; omega

theorem inv_emitCore {s : SchedState} {id : Nat} (logs2 : List LogLine)
    (hInv : Inv s) (hrun : taskIsRunning s id = true)
    (hlogs2 : ∀ l ∈ logs2, l.taskId = id) :
    Inv { s with logs := s.logs ++ logs2, now := s.now + 1 } := by
  obtain ⟨t0, hget0, hst0⟩ := taskIsRunning_iff.mp hrun
  obtain ⟨hmem0, hid0⟩ := getTask_mem hget0
  obtain ⟨hwEq, hnd, hbound, hlogsB, hfresh, hrs, hsort, hclt⟩ := hInv
  constructor
  · exact hwEq
  · exact hnd
  · exact hbound
  · intro l hl
    rcases List.mem_append.mp hl with h1 | h2
    · exact hlogsB l h1
    · rw [hlogs2 l h2, ← hid0]
      exact hbound t0 hmem0
  · intro t ht hcase
    have hold := hfresh t ht hcase
    refine ⟨hold.1, hold.2.1, ?_⟩
    rw [taskLogsFor_append, hold.2.2]
    have hne : t.id ≠ id := by
      intro hc
      have heq0 : t = t0 := eq_of_id_nodup hnd ht hmem0 (hc.trans hid0.symm)
      rcases hcase with hq1 | hq2
      · rw [heq0, hst0] at hq1; cases hq1
      · rw [heq0, hst0] at hq2; exact absurd hq2.1 (by simp)
    rw [taskLogsFor_eq_nil (fun l hl2 => by rw [hlogs2 l hl2]; exact fun hc => hne hc.symm)]
    rfl
  · exact hrs
  · exact hsort
  · intro t ht
    have := hclt t ht
    show t.createdAt < s.now + 1
    omega

end CodexCore

namespace CodexCore

theorem inv_addRunningTask {s : SchedState} (hInv : Inv s) (t : Task)
    (hid : t.id = s.nextId) (hcr : t.createdAt = s.now)
    (hst : t.status = .Running) (hsa : t.startedAt = some s.now) :
    Inv { s with tasks := s.tasks ++ [t], nextId := s.nextId + 1, now := s.now + 1 } := by
  constructor
  · show s.waiting = queuedIds (s.tasks ++ [t])
    rw [queuedIds_append_one]
    simp [hst, hInv.waitEq]
  · show ((s.tasks ++ [t]).map Task.id).Nodup
    rw [List.map_append]
    exact nodup_concat_of hInv.nodup (by rw [hid]; exact nextId_not_mem hInv)
  · intro t' ht'
    rcases List.mem_append.mp ht' with h1 | h2
    · have := hInv.bound t' h1
      show t'.id < s.nextId + 1
      omega
    · rw [List.mem_singleton.mp h2, hid]
      show s.nextId < s.nextId + 1
      omega
  · intro l hl
    have := hInv.logsBound l hl
    show l.taskId < s.nextId + 1
    omega
  · intro t' ht' hcase
    rcases List.mem_append.mp ht' with h1 | h2
    · exact hInv.fresh t' h1 hcase
    · exfalso
      rw [List.mem_singleton.mp h2] at hcase
      rcases hcase with hc1 | hc2
      · rw [hst] at hc1; cases hc1
      · rw [hst] at hc2; exact absurd hc2.1 (by simp)
  · intro t' ht' hrun2
    rcases List.mem_append.mp ht' with h1 | h2
    · exact hInv.runningStarted t' h1 hrun2
    · rw [List.mem_singleton.mp h2, hsa]
      simp
  · show (s.tasks ++ [t]).Pairwise (fun a b => a.createdAt < b.createdAt)
    rw [List.pairwise_append]
    refine ⟨hInv.sorted, List.pairwise_singleton _ t, ?_⟩
    intro a ha b hb
    rw [List.mem_singleton.mp hb, hcr]
    exact hInv.createdLt a ha
  · intro t' ht'
    show t'.createdAt < s.now + 1
    rcases List.mem_append.mp ht' with h1 | h2
    · have := hInv.createdLt t' h1
      omega
    · rw [List.mem_singleton.mp h2, hcr]
      omega

theorem inv_addQueuedTask {s : SchedState} (hInv : Inv s) (t : Task)
    (hid : t.id = s.nextId) (hcr : t.createdAt = s.now)
    (hst : t.status = .Queued) (hsa : t.startedAt = none) (hec : t.exitCode = none) :
    Inv { s with tasks := s.tasks ++ [t], waiting := s.waiting ++ [t.id],
                 nextId := s.nextId + 1, now := s.now + 1 } := by
  constructor
  · show s.waiting ++ [t.id] = queuedIds (s.tasks ++ [t])
    rw [queuedIds_append_one]
    simp [hst, hInv.waitEq]
  · show ((s.tasks ++ [t]).map Task.id).Nodup
    rw [List.map_append]
    exact nodup_concat_of hInv.nodup (by rw [hid]; exact nextId_not_mem hInv)
  · intro t' ht'
    rcases List.mem_append.mp ht' with h1 | h2
    · have := hInv.bound t' h1
      show t'.id < s.nextId + 1
      omega
    · rw [List.mem_singleton.mp h2, hid]
      show s.nextId < s.nextId + 1
      omega
  · intro l hl
    have := hInv.logsBound l hl
    show l.taskId < s.nextId + 1
    omega
  · intro t' ht' hcase
    rcases List.mem_append.mp ht' with h1 | h2
    · exact hInv.fresh t' h1 hcase
    · rw [List.mem_singleton.mp h2]
      refine ⟨hsa, hec, ?_⟩
      apply taskLogsFor_eq_nil
      intro l hl
      have := hInv.logsBound l hl
      rw [hid]
      omega
  · intro t' ht' hrun2
    rcases List.mem_append.mp ht' with h1 | h2
    · exact hInv.runningStarted t' h1 hrun2
    · exfalso
      rw [List.mem_singleton.mp h2, hst] at hrun2
      cases hrun2
  · show (s.tasks ++ [t]).Pairwise (fun a b => a.createdAt < b.createdAt)
    rw [List.pairwise_append]
    refine ⟨hInv.sorted, List.pairwise_singleton _ t, ?_⟩
    intro a ha b hb
    rw [List.mem_singleton.mp hb, hcr]
    exact hInv.createdLt a ha
  · intro t' ht'
    show t'.createdAt < s.now + 1
    rcases List.mem_append.mp ht' with h1 | h2
    · have := hInv.createdLt t' h1
      omega
    · rw [List.mem_singleton.mp h2, hcr]
      omega

end CodexCore

namespace CodexCore

theorem cancelTask_notFound {s : SchedState} {id : Nat}
    (hg : getTask s id = none) :
    cancelTask id s = (.TaskNotFound, s) := by
  simp only [cancelTask, hg]

theorem cancelTask_queued {s : SchedState} {id : Nat} {t : Task}
    (hg : getTask s id = some t) (ht : t.status = .Queued) :
    cancelTask id s =
      (.Ok, { s with
                waiting := s.waiting.filter (fun w => !(w == id)),
                tasks := setStatus id .Queued (toCancelled s.now) s.tasks,
                now := s.now + 1 }) := by
  simp only [cancelTask, hg, ht]

theorem cancelTask_running {s : SchedState} {id : Nat} {t : Task}
    (hg : getTask s id = some t) (ht : t.status = .Running) :
    cancelTask id s =
      (.Ok, promote { s with
                        tasks := setStatus id .Running (toCancelled s.now) s.tasks,
                        now := s.now + 1 }) := by
  simp only [cancelTask, hg, ht]

theorem cancelTask_terminal {s : SchedState} {id : Nat} {t : Task}
    (hg : getTask s id = some t) (ht : t.status.isTerminal = true) :
    cancelTask id s = (.TaskNotCancellable, s) := by
  cases hst : t.status <;> rw [hst] at ht <;> simp [TaskStatus.isTerminal] at ht <;>
    simp only [cancelTask, hg, hst]

theorem submitTask_reject {p : PermissionMode} {th : Nat} {c cw sh : String}
    {cd : Bool} {s : SchedState} (hg : permissionGate p c cd = .Reject) :
    submitTask p th c cw sh cd s = .error .PermissionRequired := by
  simp only [submitTask, hg]

theorem submitTask_allow_running {p : PermissionMode} {th : Nat} {c cw sh : String}
    {cd : Bool} {s : SchedState} (hg : permissionGate p c cd = .Allow)
    (hc : countRunning s.tasks < s.limit) :
    submitTask p th c cw sh cd s =
      .ok ({ newTask s th c cw sh with status := TaskStatus.Running, startedAt := some s.now },
           { s with
               tasks := s.tasks ++
                 [{ newTask s th c cw sh with status := TaskStatus.Running, startedAt := some s.now }],
               nextId := s.nextId + 1, now := s.now + 1 }) := by
  simp only [submitTask, hg, if_pos hc]

theorem submitTask_allow_queued {p : PermissionMode} {th : Nat} {c cw sh : String}
    {cd : Bool} {s : SchedState} (hg : permissionGate p c cd = .Allow)
    (hc : ¬countRunning s.tasks < s.limit) :
    submitTask p th c cw sh cd s =
      .ok (newTask s th c cw sh,
           { s with
               tasks := s.tasks ++ [newTask s th c cw sh],
               waiting := s.waiting ++ [(newTask s th c cw sh).id],
               nextId := s.nextId + 1, now := s.now + 1 }) := by
  simp only [submitTask, hg, if_neg hc]

theorem finishTask_run {s : SchedState} {id : Nat} (code : Int)
    (hr : taskIsRunning s id = true) :
    finishTask id code s =
      promote { s with
                  tasks := setStatus id .Running (toFinished s.now code) s.tasks,
                  now := s.now + 1 } := by
  unfold finishTask
  rw [if_pos hr]

theorem finishTask_notRun {s : SchedState} {id : Nat} (code : Int)
    (hr : ¬taskIsRunning s id = true) :
    finishTask id code s = s := by
  unfold finishTask
  rw [if_neg hr]

theorem spawnFailTask_run {s : SchedState} {id : Nat} (msg : String)
    (hr : taskIsRunning s id = true) :
    spawnFailTask id msg s =
      promote { s with
                  tasks := setStatus id .Running (toSpawnFailed s.now) s.tasks,
                  logs := s.logs ++ [{ taskId := id, stream := "stderr", line := msg }],
                  now := s.now + 1 } := by
  unfold spawnFailTask
  rw [if_pos hr]

theorem spawnFailTask_notRun {s : SchedState} {id : Nat} (msg : String)
    (hr : ¬taskIsRunning s id = true) :
    spawnFailTask id msg s = s := by
  unfold spawnFailTask
  rw [if_neg hr]

theorem emitLog_run {s : SchedState} {id : Nat} (st ln : String)
    (hr : taskIsRunning s id = true) :
    emitLog id st ln s =
      { s with
          logs := s.logs ++ [{ taskId := id, stream := st, line := ln }],
          now := s.now + 1 } := by
  unfold emitLog
  rw [if_pos hr]

theorem emitLog_notRun {s : SchedState} {id : Nat} (st ln : String)
    (hr : ¬taskIsRunning s id = true) :
    emitLog id st ln s = s := by
  unfold emitLog
  rw [if_neg hr]

theorem inv_applyOp {s : SchedState} (hInv : Inv s) (op : Op) : Inv (applyOp s op) := by
  cases op with
  | submit p th c cw sh cd =>
    show Inv (match submitTask p th c cw sh cd s with
              | .error _ => s
              | .ok (_, s2) => s2)
    cases hg : permissionGate p c cd with
    | Reject =>
      rw [submitTask_reject hg]
      exact hInv
    | Allow =>
      by_cases hc : countRunning s.tasks < s.limit
      · rw [submitTask_allow_running hg hc]
        exact inv_addRunningTask hInv _ rfl rfl rfl rfl
      · rw [submitTask_allow_queued hg hc]
        exact inv_addQueuedTask hInv _ rfl rfl rfl rfl rfl
  | cancel id =>
    show Inv (cancelTask id s).2
    cases hg : getTask s id with
    | none =>
      rw [cancelTask_notFound hg]
      exact hInv
    | some t =>
      cases hst : t.status with
      | Queued =>
        rw [cancelTask_queued hg hst]
        exact inv_cancelQueuedCore hInv
      | Running =>
        rw [cancelTask_running hg hst]
        have h2 := inv_terminalCore (toCancelled s.now) []
          (fun u => rfl) (fun u => rfl) (fun u => by simp) (fun u => by simp)
          (fun u => rfl) hInv (taskIsRunning_iff.mpr ⟨t, hg, hst⟩)
          (fun l hl => by cases hl)
        rw [List.append_nil] at h2
        exact inv_promote h2
      | Succeeded =>
        rw [cancelTask_terminal hg (by rw [hst]; rfl)]
        exact hInv
      | Failed =>
        rw [cancelTask_terminal hg (by rw [hst]; rfl)]
        exact hInv
      | Cancelled =>
        rw [cancelTask_terminal hg (by rw [hst]; rfl)]
        exact hInv
  | finish id code =>
    show Inv (finishTask id code s)
    by_cases hr : taskIsRunning s id = true
    · rw [finishTask_run code hr]
      have h2 := inv_terminalCore (toFinished s.now code) []
        (fun u => rfl) (fun u => rfl)
        (fun u => by by_cases hcode : code = 0 <;> simp [hcode])
        (fun u => by by_cases hcode : code = 0 <;> simp [hcode])
        (fun u => rfl) hInv hr (fun l hl => by cases hl)
      rw [List.append_nil] at h2
      exact inv_promote h2
    · rw [finishTask_notRun code hr]
      exact hInv
  | spawnFail id msg =>
    show Inv (spawnFailTask id msg s)
    by_cases hr : taskIsRunning s id = true
    · rw [spawnFailTask_run msg hr]
      exact inv_promote (inv_terminalCore (toSpawnFailed s.now)
        [{ taskId := id, stream := "stderr", line := msg }]
        (fun u => rfl) (fun u => rfl) (fun u => by simp) (fun u => by simp)
        (fun u => rfl) hInv hr
        (fun l hl => by rw [List.mem_singleton.mp hl]))
    · rw [spawnFailTask_notRun msg hr]
      exact hInv
  | emit id st ln =>
    show Inv (emitLog id st ln s)
    by_cases hr : taskIsRunning s id = true
    · rw [emitLog_run st ln hr]
      exact inv_emitCore [{ taskId := id, stream := st, line := ln }] hInv hr
        (fun l hl => by rw [List.mem_singleton.mp hl])
    · rw [emitLog_notRun st ln hr]
      exact hInv
  | setLimit n =>
    exact ⟨hInv.waitEq, hInv.nodup, hInv.bound, hInv.logsBound, hInv.fresh,
           hInv.runningStarted, hInv.sorted, hInv.createdLt⟩

theorem inv_initState (L : Nat) : Inv (initState L) := by
  constructor <;> simp [initState, queuedIds]

theorem inv_runOps_from {s : SchedState} (hInv : Inv s) (ops : List Op) :
    Inv (runOps s ops) := by
  induction ops generalizing s with
  | nil => exact hInv
  | cons op rest ih =>
    show Inv (runOps (applyOp s op) rest)
    exact ih (inv_applyOp hInv op)

theorem inv_runOps (L : Nat) (ops : List Op) : Inv (runOps (initState L) ops) :=
  inv_runOps_from (inv_initState L) ops

end CodexCore

namespace CodexCore

theorem find?_eq_of_mem_nodup {ts : List Task} (hnd : (ts.map Task.id).Nodup)
    {t : Task} (ht : t ∈ ts) {id : Nat} (hid : t.id = id) :
    ts.find? (fun x => x.id == id) = some t := by
  induction ts with
  | nil => cases ht
  | cons hd tl ih =>
    rw [List.map_cons, List.nodup_cons] at hnd
    rcases List.mem_cons.mp ht with rfl | h2
    · rw [List.find?_cons_of_pos _ (by simp [hid])]
    · by_cases hh : hd.id = id
      · exfalso
        apply hnd.1
        rw [hh, ← hid]
        exact List.mem_map_of_mem Task.id h2
      · rw [List.find?_cons_of_neg _ (by simp [hh])]
        exact ih hnd.2 h2

theorem filter_queued_cons_of {ts : List Task} {h : Nat} {rest : List Nat}
    (hq : queuedIds ts = h :: rest) :
    ∃ q0 qrest, ts.filter (fun t => t.status == TaskStatus.Queued) = q0 :: qrest ∧
      q0.id = h ∧ qrest.map Task.id = rest := by
  unfold queuedIds at hq
  cases hfil : ts.filter (fun t => t.status == TaskStatus.Queued) with
  | nil => rw [hfil] at hq; cases hq
  | cons q0 qrest =>
    rw [hfil, List.map_cons] at hq
    exact ⟨q0, qrest, rfl, (List.cons.injEq _ _ _ _).mp hq |>.1,
      (List.cons.injEq _ _ _ _).mp hq |>.2⟩

theorem promote_cons {s : SchedState} {h : Nat} {rest : List Nat}
    (hw : s.waiting = h :: rest) (hc : countRunning s.tasks < s.limit) :
    promote s = { s with
                    waiting := rest,
                    tasks := setStatus h .Queued (toRunning s.now) s.tasks } := by
  simp only [promote, hw, if_pos hc]

theorem promote_cons_full {s : SchedState} {h : Nat} {rest : List Nat}
    (hw : s.waiting = h :: rest) (hc : ¬countRunning s.tasks < s.limit) :
    promote s = s := by
  simp only [promote, hw, if_neg hc]

theorem promote_nil {s : SchedState} (hw : s.waiting = []) : promote s = s := by
  simp only [promote, hw]

theorem promote_spec {s : SchedState} (hInv : Inv s) {h : Nat} {rest : List Nat}
    (hw : s.waiting = h :: rest) (hc : countRunning s.tasks < s.limit) :
    (promote s).waiting = rest ∧
    statusOfTask (promote s) h = some .Running ∧
    countRunning (promote s).tasks = countRunning s.tasks + 1 ∧
    ∃ q0, getTask s h = some q0 ∧ q0.status = .Queued ∧
      ∀ t ∈ s.tasks, t.status = .Queued → q0.createdAt ≤ t.createdAt := by
  have hq : queuedIds s.tasks = h :: rest := hInv.waitEq.symm.trans hw
  obtain ⟨q0, qrest, hfil, hq0id, hqrest⟩ := filter_queued_cons_of hq
  have hq0mem : q0 ∈ s.tasks ∧ (q0.status == TaskStatus.Queued) = true :=
    List.mem_filter.mp (hfil ▸ List.mem_cons_self q0 qrest)
  have hq0st : q0.status = .Queued := by
    have := hq0mem.2
    simpa [beq_iff_eq] using this
  have hget : getTask s h = some q0 :=
    find?_eq_of_mem_nodup hInv.nodup hq0mem.1 hq0id
  rw [promote_cons hw hc]
  refine ⟨rfl, ?_, ?_, q0, hget, hq0st, ?_⟩
  · show ((setStatus h .Queued (toRunning s.now) s.tasks).find?
      (fun t => t.id == h)).map Task.status = some .Running
    rw [getTask_setStatus h .Queued (toRunning s.now) (fun u => rfl) s.tasks h]
    show ((getTask s h).map _).map Task.status = some .Running
    rw [hget]
    simp [hq0id, hq0st]
  · show countRunning (setStatus h .Queued (toRunning s.now) s.tasks) =
      countRunning s.tasks + 1
    exact countRunning_setStatus_succ h (toRunning s.now) (fun u => rfl) s.tasks
      hInv.nodup ⟨q0, hq0mem.1, hq0id, hq0st⟩
  · intro t ht hts
    have htfil : t ∈ q0 :: qrest := by
      rw [← hfil]
      exact List.mem_filter.mpr ⟨ht, by simp [beq_iff_eq, hts]⟩
    have hpair : (q0 :: qrest).Pairwise (fun a b => a.createdAt < b.createdAt) := by
      rw [← hfil]
      exact hInv.sorted.sublist (List.filter_sublist s.tasks)
    rcases List.mem_cons.mp htfil with rfl | h2
    · exact Nat.le_refl _
    · exact Nat.le_of_lt ((List.pairwise_cons.mp hpair).1 t h2)

theorem countRunning_promote_le {s : SchedState} (hInv : Inv s)
    (hle : countRunning s.tasks ≤ s.limit) :
    countRunning (promote s).tasks ≤ s.limit := by
  cases hw : s.waiting with
  | nil => rw [promote_nil hw]; exact hle
  | cons h rest =>
    by_cases hc : countRunning s.tasks < s.limit
    · have := (promote_spec hInv hw hc).2.2.1
      omega
    · rw [promote_cons_full hw hc]
      exact hle

end CodexCore

namespace CodexCore

theorem promote_limit (s : SchedState) : (promote s).limit = s.limit := by
  cases hw : s.waiting with
  | nil => rw [promote_nil hw]
  | cons h rest =>
    by_cases hc : countRunning s.tasks < s.limit
    · rw [promote_cons hw hc]
    · rw [promote_cons_full hw hc]

theorem countRunning_le_applyOp {s : SchedState} (hInv : Inv s) (op : Op)
    (hle : countRunning s.tasks ≤ s.limit)
    (hsafe : ∀ n, op = Op.setLimit n → countRunning s.tasks ≤ n) :
    countRunning (applyOp s op).tasks ≤ (applyOp s op).limit := by
  cases op with
  | submit p th c cw sh cd =>
    simp only [applyOp]
    cases hg : permissionGate p c cd with
    | Reject =>
      rw [submitTask_reject hg]
      exact hle
    | Allow =>
      by_cases hc : countRunning s.tasks < s.limit
      · rw [submitTask_allow_running hg hc]
        show countRunning (s.tasks ++ [{ newTask s th c cw sh with status := TaskStatus.Running, startedAt := some s.now }]) ≤ s.limit
        rw [countRunning_append_one]
        simp only [if_pos]
        omega
      · rw [submitTask_allow_queued hg hc]
        show countRunning (s.tasks ++ [newTask s th c cw sh]) ≤ s.limit
        rw [countRunning_append_one]
        have hq : (newTask s th c cw sh).status = .Queued := rfl
        rw [hq]
        simp
        exact hle
  | cancel id =>
    simp only [applyOp]
    cases hg : getTask s id with
    | none =>
      rw [cancelTask_notFound hg]
      exact hle
    | some t =>
      cases hst : t.status with
      | Queued =>
        rw [cancelTask_queued hg hst]
        show countRunning (setStatus id .Queued (toCancelled s.now) s.tasks) ≤ s.limit
        rw [countRunning_setStatus_of_src_ne id .Queued (toCancelled s.now)
          (by decide) (by intro u; simp)]
        exact hle
      | Running =>
        rw [cancelTask_running hg hst]
        have h2 : Inv { s with
            tasks := setStatus id .Running (toCancelled s.now) s.tasks,
            now := s.now + 1 } := by
          have h3 := inv_terminalCore (toCancelled s.now) []
            (fun u => rfl) (fun u => rfl) (fun u => by simp) (fun u => by simp)
            (fun u => rfl) hInv (taskIsRunning_iff.mpr ⟨t, hg, hst⟩)
            (fun l hl => by cases hl)
          rwa [List.append_nil] at h3
        have hcount : countRunning (setStatus id .Running (toCancelled s.now) s.tasks) + 1 =
            countRunning s.tasks := by
          obtain ⟨hmem, hid⟩ := getTask_mem hg
          exact countRunning_setStatus_pred id (toCancelled s.now)
            (fun u => by simp) s.tasks hInv.nodup ⟨t, hmem, hid, hst⟩
        rw [promote_limit]
        show countRunning (promote { s with
            tasks := setStatus id .Running (toCancelled s.now) s.tasks,
            now := s.now + 1 }).tasks ≤ s.limit
        apply countRunning_promote_le h2
        show countRunning (setStatus id .Running (toCancelled s.now) s.tasks) ≤ s.limit
        omega
      | Succeeded =>
        rw [cancelTask_terminal hg (by rw [hst]; rfl)]
        exact hle
      | Failed =>
        rw [cancelTask_terminal hg (by rw [hst]; rfl)]
        exact hle
      | Cancelled =>
        rw [cancelTask_terminal hg (by rw [hst]; rfl)]
        exact hle
  | finish id code =>
    simp only [applyOp]
    by_cases hr : taskIsRunning s id = true
    · rw [finishTask_run code hr]
      obtain ⟨t, hg, hst⟩ := taskIsRunning_iff.mp hr
      have h2 : Inv { s with
          tasks := setStatus id .Running (toFinished s.now code) s.tasks,
          now := s.now + 1 } := by
        have h3 := inv_terminalCore (toFinished s.now code) []
          (fun u => rfl) (fun u => rfl)
          (fun u => by by_cases hcode : code = 0 <;> simp [hcode])
          (fun u => by by_cases hcode : code = 0 <;> simp [hcode])
          (fun u => rfl) hInv hr (fun l hl => by cases hl)
        rwa [List.append_nil] at h3
      have hcount : countRunning (setStatus id .Running (toFinished s.now code) s.tasks) + 1 =
          countRunning s.tasks := by
        obtain ⟨hmem, hid⟩ := getTask_mem hg
        exact countRunning_setStatus_pred id (toFinished s.now code)
          (fun u => by by_cases hcode : code = 0 <;> simp [hcode]) s.tasks
          hInv.nodup ⟨t, hmem, hid, hst⟩
      rw [promote_limit]
      apply countRunning_promote_le h2
      show countRunning (setStatus id .Running (toFinished s.now code) s.tasks) ≤ s.limit
      omega
    · rw [finishTask_notRun code hr]
      exact hle
  | spawnFail id msg =>
    simp only [applyOp]
    by_cases hr : taskIsRunning s id = true
    · rw [spawnFailTask_run msg hr]
      obtain ⟨t, hg, hst⟩ := taskIsRunning_iff.mp hr
      have h2 : Inv { s with
          tasks := setStatus id .Running (toSpawnFailed s.now) s.tasks,
          logs := s.logs ++ [{ taskId := id, stream := "stderr", line := msg }],
          now := s.now + 1 } :=
        inv_terminalCore (toSpawnFailed s.now)
          [{ taskId := id, stream := "stderr", line := msg }]
          (fun u => rfl) (fun u => rfl) (fun u => by simp) (fun u => by simp)
          (fun u => rfl) hInv hr (fun l hl => by rw [List.mem_singleton.mp hl])
      have hcount : countRunning (setStatus id .Running (toSpawnFailed s.now) s.tasks) + 1 =
          countRunning s.tasks := by
        obtain ⟨hmem, hid⟩ := getTask_mem hg
        exact countRunning_setStatus_pred id (toSpawnFailed s.now)
          (fun u => by simp) s.tasks hInv.nodup ⟨t, hmem, hid, hst⟩
      rw [promote_limit]
      apply countRunning_promote_le h2
      show countRunning (setStatus id .Running (toSpawnFailed s.now) s.tasks) ≤ s.limit
      omega
    · rw [spawnFailTask_notRun msg hr]
      exact hle
  | emit id st ln =>
    simp only [applyOp]
    by_cases hr : taskIsRunning s id = true
    · rw [emitLog_run st ln hr]
      exact hle
    · rw [emitLog_notRun st ln hr]
      exact hle
  | setLimit n =>
    simp only [applyOp, setMaxParallelTasks]
    exact hsafe n rfl

theorem countRunning_le_runOps {s : SchedState} (hInv : Inv s)
    (hle : countRunning s.tasks ≤ s.limit) {ops : List Op}
    (hsafe : safeOps s ops = true) :
    countRunning (runOps s ops).tasks ≤ (runOps s ops).limit := by
  induction ops generalizing s with
  | nil => exact hle
  | cons op rest ih =>
    simp only [safeOps, Bool.and_eq_true] at hsafe
    obtain ⟨h1, h2⟩ := hsafe
    show countRunning (runOps (applyOp s op) rest).tasks ≤
      (runOps (applyOp s op) rest).limit
    refine ih (inv_applyOp hInv op) ?_ h2
    apply countRunning_le_applyOp hInv op hle
    intro n hop
    subst hop
    simp only [] at h1
    exact of_decide_eq_true h1

end CodexCore

namespace CodexCore

theorem statusOfTask_eq_some {s : SchedState} {id : Nat} {st : TaskStatus} :
    statusOfTask s id = some st ↔ ∃ t, getTask s id = some t ∧ t.status = st := by
  unfold statusOfTask
  cases getTask s id <;> simp

theorem statusOf_setStatus_step (id' : Nat) (src : TaskStatus) (f : Task → Task)
    (hfid : ∀ t, (f t).id = t.id) {ts : List Task} {id : Nat} {st st' : TaskStatus}
    (h1 : (ts.find? (fun t => t.id == id)).map Task.status = some st)
    (h2 : ((setStatus id' src f ts).find? (fun t => t.id == id)).map Task.status = some st') :
    st' = st ∨ (st = src ∧ ∃ t ∈ ts, t.status = src ∧ st' = (f t).status) := by
  rw [getTask_setStatus id' src f hfid ts id] at h2
  cases hg : ts.find? (fun t => t.id == id) with
  | none =>
    rw [hg] at h1
    cases h1
  | some t =>
    have htmem := List.mem_of_find?_eq_some hg
    rw [hg] at h1 h2
    have hst : t.status = st := by simpa using h1
    have h2r : (if t.id = id' ∧ t.status = src then f t else t).status = st' := by
      simpa using h2
    by_cases hguard : t.id = id' ∧ t.status = src
    · right
      rw [if_pos hguard] at h2r
      exact ⟨hst ▸ hguard.2, t, htmem, hguard.2, h2r.symm⟩
    · left
      rw [if_neg hguard] at h2r
      rw [← h2r, ← hst]

theorem statusOf_some_setStatus {s : SchedState} {id : Nat} {t0 : Task}
    (hg : getTask s id = some t0) (id' : Nat) (src : TaskStatus) (f : Task → Task)
    (hfid : ∀ t, (f t).id = t.id) :
    (setStatus id' src f s.tasks).find? (fun t => t.id == id) =
      some (if t0.id = id' ∧ t0.status = src then f t0 else t0) := by
  rw [getTask_setStatus id' src f hfid s.tasks id]
  unfold getTask at hg
  rw [hg]
  rfl

theorem statusOf_promote_step {s : SchedState} {id : Nat} {st st' : TaskStatus}
    (h1 : statusOfTask s id = some st)
    (h2 : statusOfTask (promote s) id = some st') :
    st' = st ∨ (st = .Queued ∧ st' = .Running) := by
  cases hw : s.waiting with
  | nil =>
    rw [promote_nil hw] at h2
    left
    rw [h1] at h2
    exact (Option.some.inj h2).symm
  | cons h rest =>
    by_cases hc : countRunning s.tasks < s.limit
    · rw [promote_cons hw hc] at h2
      have h2b : ((setStatus h .Queued (toRunning s.now) s.tasks).find?
          (fun t => t.id == id)).map Task.status = some st' := h2
      rcases statusOf_setStatus_step h .Queued (toRunning s.now) (fun u => rfl) h1 h2b with
        he | ⟨hsrc, t, htm, hts, htt⟩
      · exact Or.inl he
      · right
        exact ⟨hsrc, by rw [htt]; rfl⟩
    · rw [promote_cons_full hw hc] at h2
      left
      rw [h1] at h2
      exact (Option.some.inj h2).symm

end CodexCore

namespace CodexCore

theorem statusOfTask_mk (ts : List Task) (w : List Nat) (lim : Nat)
    (lo : List LogLine) (ni no id : Nat) :
    statusOfTask { tasks := ts, waiting := w, limit := lim, logs := lo,
                   nextId := ni, now := no } id
      = (ts.find? (fun t => t.id == id)).map Task.status := rfl

theorem statusOf_terminalPromote_step (i : Nat) (f : Task → Task)
    (hfid : ∀ t, (f t).id = t.id)
    (hfq : ∀ t, (f t).status ≠ .Queued)
    (hfv : ∀ t, t.status = .Running → validTransition .Running (f t).status = true)
    {s s2 : SchedState} (hs2 : s2.tasks = setStatus i .Running f s.tasks)
    {id : Nat} {st st' : TaskStatus}
    (h1 : statusOfTask s id = some st)
    (h2 : statusOfTask (promote s2) id = some st') :
    st' = st ∨ validTransition st st' = true := by
  obtain ⟨t0, hget0, hst0⟩ := statusOfTask_eq_some.mp h1
  have hmid : statusOfTask s2 id =
      some ((if t0.id = i ∧ t0.status = .Running then f t0 else t0).status) := by
    show (s2.tasks.find? (fun t => t.id == id)).map Task.status = _
    rw [hs2, statusOf_some_setStatus hget0 i .Running f hfid]
    rfl
  rcases statusOf_promote_step hmid h2 with he | ⟨hq, hr⟩
  · by_cases hguard : t0.id = i ∧ t0.status = .Running
    · rw [if_pos hguard] at he
      right
      have hstr : st = .Running := hst0 ▸ hguard.2
      rw [hstr, he]
      exact hfv t0 hguard.2
    · rw [if_neg hguard] at he
      left
      rw [he, hst0]
  · by_cases hguard : t0.id = i ∧ t0.status = .Running
    · rw [if_pos hguard] at hq
      exact absurd hq (hfq t0)
    · rw [if_neg hguard] at hq
      right
      have hstq : st = .Queued := by rw [← hst0, hq]
      rw [hstq, hr]
      rfl

theorem statusOf_applyOp_step {s : SchedState} (op : Op) {id : Nat} {st st' : TaskStatus}
    (h1 : statusOfTask s id = some st)
    (h2 : statusOfTask (applyOp s op) id = some st') :
    st' = st ∨ validTransition st st' = true := by
  obtain ⟨t0, hget0, hst0⟩ := statusOfTask_eq_some.mp h1
  cases op with
  | submit p th c cw sh cd =>
    have happ : applyOp s (.submit p th c cw sh cd) =
      (match submitTask p th c cw sh cd s with
       | .error _ => s
       | .ok (_, s2) => s2) := rfl
    rw [happ] at h2
    cases hg : permissionGate p c cd with
    | Reject =>
      rw [submitTask_reject hg] at h2
      left
      rw [h1] at h2
      exact (Option.some.inj h2).symm
    | Allow =>
      by_cases hc : countRunning s.tasks < s.limit
      · rw [submitTask_allow_running hg hc] at h2
        have hg2 : ((s.tasks ++
            [{ newTask s th c cw sh with status := TaskStatus.Running, startedAt := some s.now }]).find?
            (fun t => t.id == id)) = some t0 := find?_append_of_some hget0
        rw [statusOfTask_mk, hg2] at h2
        left
        rw [← hst0]
        simpa using h2.symm
      · rw [submitTask_allow_queued hg hc] at h2
        have hg2 : ((s.tasks ++ [newTask s th c cw sh]).find?
            (fun t => t.id == id)) = some t0 := find?_append_of_some hget0
        rw [statusOfTask_mk, hg2] at h2
        left
        rw [← hst0]
        simpa using h2.symm
  | cancel i =>
    have happ : applyOp s (.cancel i) = (cancelTask i s).2 := rfl
    rw [happ] at h2
    cases hgi : getTask s i with
    | none =>
      rw [cancelTask_notFound hgi] at h2
      left
      rw [h1] at h2
      exact (Option.some.inj h2).symm
    | some u =>
      cases hstu : u.status with
      | Queued =>
        rw [cancelTask_queued hgi hstu] at h2
        have h1b : (s.tasks.find? (fun t => t.id == id)).map Task.status = some st := h1
        have h2b : ((setStatus i .Queued (toCancelled s.now) s.tasks).find?
            (fun t => t.id == id)).map Task.status = some st' := h2
        rcases statusOf_setStatus_step i .Queued (toCancelled s.now) (fun u => rfl) h1b h2b with
          he | ⟨hsrc, v, hvm, hvs, hvt⟩
        · exact Or.inl he
        · right
          rw [hsrc, hvt]
          rfl
      | Running =>
        rw [cancelTask_running hgi hstu] at h2
        exact statusOf_terminalPromote_step i (toCancelled s.now)
          (fun u => rfl) (fun u => by simp) (fun u hu => rfl) rfl h1 h2
      | Succeeded =>
        rw [cancelTask_terminal hgi (by rw [hstu]; rfl)] at h2
        left
        rw [h1] at h2
        exact (Option.some.inj h2).symm
      | Failed =>
        rw [cancelTask_terminal hgi (by rw [hstu]; rfl)] at h2
        left
        rw [h1] at h2
        exact (Option.some.inj h2).symm
      | Cancelled =>
        rw [cancelTask_terminal hgi (by rw [hstu]; rfl)] at h2
        left
        rw [h1] at h2
        exact (Option.some.inj h2).symm
  | finish i code =>
    have happ : applyOp s (.finish i code) = finishTask i code s := rfl
    rw [happ] at h2
    by_cases hr : taskIsRunning s i = true
    · rw [finishTask_run code hr] at h2
      exact statusOf_terminalPromote_step i (toFinished s.now code)
        (fun u => by by_cases hcode : code = 0 <;> simp [hcode])
        (fun u => by by_cases hcode : code = 0 <;> simp [hcode])
        (fun u hu => by by_cases hcode : code = 0 <;> simp [hcode] <;> rfl)
        rfl h1 h2
    · rw [finishTask_notRun code hr] at h2
      left
      rw [h1] at h2
      exact (Option.some.inj h2).symm
  | spawnFail i msg =>
    have happ : applyOp s (.spawnFail i msg) = spawnFailTask i msg s := rfl
    rw [happ] at h2
    by_cases hr : taskIsRunning s i = true
    · rw [spawnFailTask_run msg hr] at h2
      exact statusOf_terminalPromote_step i (toSpawnFailed s.now)
        (fun u => rfl) (fun u => by simp) (fun u hu => rfl) rfl h1 h2
    · rw [spawnFailTask_notRun msg hr] at h2
      left
      rw [h1] at h2
      exact (Option.some.inj h2).symm
  | emit i stm ln =>
    have happ : applyOp s (.emit i stm ln) = emitLog i stm ln s := rfl
    rw [happ] at h2
    by_cases hr : taskIsRunning s i = true
    · rw [emitLog_run stm ln hr] at h2
      have h2b : statusOfTask s id = some st' := h2
      left
      rw [h1] at h2b
      exact (Option.some.inj h2b).symm
    · rw [emitLog_notRun stm ln hr] at h2
      left
      rw [h1] at h2
      exact (Option.some.inj h2).symm
  | setLimit n =>
    have h2b : statusOfTask s id = some st' := h2
    left
    rw [h1] at h2b
    exact (Option.some.inj h2b).symm

end CodexCore

namespace CodexCore

theorem validTransition_of_terminal {st st' : TaskStatus}
    (h : st.isTerminal = true) : validTransition st st' = false := by
  cases st <;> simp [TaskStatus.isTerminal] at h <;> cases st' <;> rfl

theorem getTask_setStatus_frame {s : SchedState} {id : Nat} {t : Task}
    (hg : getTask s id = some t) (i : Nat) (src : TaskStatus) (f : Task → Task)
    (hfid : ∀ u, (f u).id = u.id) (hne : t.status ≠ src) :
    (setStatus i src f s.tasks).find? (fun x => x.id == id) = some t := by
  rw [statusOf_some_setStatus hg i src f hfid]
  rw [if_neg (fun hc => hne hc.2)]

theorem getTask_promote_some {s : SchedState} {id : Nat} {t : Task}
    (h : getTask s id = some t) : ∃ u, getTask (promote s) id = some u := by
  cases hw : s.waiting with
  | nil =>
    rw [promote_nil hw]
    exact ⟨t, h⟩
  | cons hh rest =>
    by_cases hc : countRunning s.tasks < s.limit
    · rw [promote_cons hw hc]
      exact ⟨_, statusOf_some_setStatus h hh .Queued (toRunning s.now) (fun u => rfl)⟩
    · rw [promote_cons_full hw hc]
      exact ⟨t, h⟩

theorem getTask_promote_frame {s : SchedState} {id : Nat} {t : Task}
    (hg : getTask s id = some t) (hne : t.status ≠ .Queued) :
    getTask (promote s) id = some t := by
  cases hw : s.waiting with
  | nil =>
    rw [promote_nil hw]
    exact hg
  | cons hh rest =>
    by_cases hc : countRunning s.tasks < s.limit
    · rw [promote_cons hw hc]
      exact getTask_setStatus_frame hg hh .Queued (toRunning s.now) (fun u => rfl) hne
    · rw [promote_cons_full hw hc]
      exact hg

theorem taskIsRunning_eq_false_of {s : SchedState} {id : Nat} {t : Task}
    (hg : getTask s id = some t) (hne : t.status ≠ .Running) :
    ¬taskIsRunning s id = true := by
  unfold taskIsRunning
  rw [hg]
  simp [beq_iff_eq, hne]

theorem getTask_applyOp_some {s : SchedState} (op : Op) {id : Nat} {t0 : Task}
    (h : getTask s id = some t0) :
    ∃ u, getTask (applyOp s op) id = some u := by
  cases op with
  | submit p th c cw sh cd =>
    show ∃ u, getTask (match submitTask p th c cw sh cd s with
      | .error _ => s
      | .ok (_, s2) => s2) id = some u
    cases hg : permissionGate p c cd with
    | Reject =>
      rw [submitTask_reject hg]
      exact ⟨t0, h⟩
    | Allow =>
      by_cases hc : countRunning s.tasks < s.limit
      · rw [submitTask_allow_running hg hc]
        exact ⟨t0, find?_append_of_some h⟩
      · rw [submitTask_allow_queued hg hc]
        exact ⟨t0, find?_append_of_some h⟩
  | cancel i =>
    show ∃ u, getTask (cancelTask i s).2 id = some u
    cases hgi : getTask s i with
    | none =>
      rw [cancelTask_notFound hgi]
      exact ⟨t0, h⟩
    | some v =>
      cases hstv : v.status with
      | Queued =>
        rw [cancelTask_queued hgi hstv]
        exact ⟨_, statusOf_some_setStatus h i .Queued (toCancelled s.now) (fun u => rfl)⟩
      | Running =>
        rw [cancelTask_running hgi hstv]
        have hmid : getTask { s with
            tasks := setStatus i .Running (toCancelled s.now) s.tasks,
            now := s.now + 1 } id = some (if t0.id = i ∧ t0.status = .Running
              then toCancelled s.now t0 else t0) :=
          statusOf_some_setStatus h i .Running (toCancelled s.now) (fun u => rfl)
        exact getTask_promote_some hmid
      | Succeeded =>
        rw [cancelTask_terminal hgi (by rw [hstv]; rfl)]
        exact ⟨t0, h⟩
      | Failed =>
        rw [cancelTask_terminal hgi (by rw [hstv]; rfl)]
        exact ⟨t0, h⟩
      | Cancelled =>
        rw [cancelTask_terminal hgi (by rw [hstv]; rfl)]
        exact ⟨t0, h⟩
  | finish i code =>
    show ∃ u, getTask (finishTask i code s) id = some u
    by_cases hr : taskIsRunning s i = true
    · rw [finishTask_run code hr]
      exact getTask_promote_some
        (statusOf_some_setStatus h i .Running (toFinished s.now code) (fun u => rfl))
    · rw [finishTask_notRun code hr]
      exact ⟨t0, h⟩
  | spawnFail i msg =>
    show ∃ u, getTask (spawnFailTask i msg s) id = some u
    by_cases hr : taskIsRunning s i = true
    · rw [spawnFailTask_run msg hr]
      exact getTask_promote_some
        (statusOf_some_setStatus h i .Running (toSpawnFailed s.now) (fun u => rfl))
    · rw [spawnFailTask_notRun msg hr]
      exact ⟨t0, h⟩
  | emit i stm ln =>
    show ∃ u, getTask (emitLog i stm ln s) id = some u
    by_cases hr : taskIsRunning s i = true
    · rw [emitLog_run stm ln hr]
      exact ⟨t0, h⟩
    · rw [emitLog_notRun stm ln hr]
      exact ⟨t0, h⟩
  | setLimit n =>
    exact ⟨t0, h⟩

theorem statusOf_terminal_applyOp {s : SchedState} (op : Op) {id : Nat} {st : TaskStatus}
    (h1 : statusOfTask s id = some st) (hterm : st.isTerminal = true) :
    statusOfTask (applyOp s op) id = some st := by
  obtain ⟨t0, hget0, hst0⟩ := statusOfTask_eq_some.mp h1
  obtain ⟨u, hu⟩ := getTask_applyOp_some op hget0
  have h2 : statusOfTask (applyOp s op) id = some u.status :=
    statusOfTask_eq_some.mpr ⟨u, hu, rfl⟩
  rcases statusOf_applyOp_step op h1 h2 with he | hv
  · rw [h2, he]
  · rw [validTransition_of_terminal hterm] at hv
    cases hv

theorem statusOf_terminal_runOps {s : SchedState} (ops : List Op) {id : Nat} {st : TaskStatus}
    (h1 : statusOfTask s id = some st) (hterm : st.isTerminal = true) :
    statusOfTask (runOps s ops) id = some st := by
  induction ops generalizing s with
  | nil => exact h1
  | cons op rest ih =>
    show statusOfTask (runOps (applyOp s op) rest) id = some st
    exact ih (statusOf_terminal_applyOp op h1 hterm)

end CodexCore

namespace CodexCore

theorem promote_logs (s : SchedState) : (promote s).logs = s.logs := by
  cases hw : s.waiting with
  | nil => rw [promote_nil hw]
  | cons h rest =>
    by_cases hc : countRunning s.tasks < s.limit
    · rw [promote_cons hw hc]
    · rw [promote_cons_full hw hc]

theorem cancelFresh_applyOp {s : SchedState} {id : Nat}
    (h : CancelFresh s id) (op : Op) : CancelFresh (applyOp s op) id := by
  obtain ⟨t, hget, hst, hsa, hec, hlogs⟩ := h
  have hneQ : t.status ≠ .Queued := by rw [hst]; intro hc; cases hc
  have hneR : t.status ≠ .Running := by rw [hst]; intro hc; cases hc
  cases op with
  | submit p th c cw sh cd =>
    show CancelFresh (match submitTask p th c cw sh cd s with
      | .error _ => s
      | .ok (_, s2) => s2) id
    cases hg : permissionGate p c cd with
    | Reject =>
      rw [submitTask_reject hg]
      exact ⟨t, hget, hst, hsa, hec, hlogs⟩
    | Allow =>
      by_cases hc : countRunning s.tasks < s.limit
      · rw [submitTask_allow_running hg hc]
        exact ⟨t, find?_append_of_some hget, hst, hsa, hec, hlogs⟩
      · rw [submitTask_allow_queued hg hc]
        exact ⟨t, find?_append_of_some hget, hst, hsa, hec, hlogs⟩
  | cancel i =>
    show CancelFresh (cancelTask i s).2 id
    cases hgi : getTask s i with
    | none =>
      rw [cancelTask_notFound hgi]
      exact ⟨t, hget, hst, hsa, hec, hlogs⟩
    | some v =>
      cases hstv : v.status with
      | Queued =>
        rw [cancelTask_queued hgi hstv]
        exact ⟨t, getTask_setStatus_frame hget i .Queued (toCancelled s.now)
          (fun u => rfl) hneQ, hst, hsa, hec, hlogs⟩
      | Running =>
        rw [cancelTask_running hgi hstv]
        have hmid : getTask { s with
            tasks := setStatus i .Running (toCancelled s.now) s.tasks,
            now := s.now + 1 } id = some t :=
          getTask_setStatus_frame hget i .Running (toCancelled s.now)
            (fun u => rfl) hneR
        refine ⟨t, getTask_promote_frame hmid hneQ, hst, hsa, hec, ?_⟩
        rw [promote_logs]
        exact hlogs
      | Succeeded =>
        rw [cancelTask_terminal hgi (by rw [hstv]; rfl)]
        exact ⟨t, hget, hst, hsa, hec, hlogs⟩
      | Failed =>
        rw [cancelTask_terminal hgi (by rw [hstv]; rfl)]
        exact ⟨t, hget, hst, hsa, hec, hlogs⟩
      | Cancelled =>
        rw [cancelTask_terminal hgi (by rw [hstv]; rfl)]
        exact ⟨t, hget, hst, hsa, hec, hlogs⟩
  | finish i code =>
    show CancelFresh (finishTask i code s) id
    by_cases hr : taskIsRunning s i = true
    · rw [finishTask_run code hr]
      have hmid : getTask { s with
          tasks := setStatus i .Running (toFinished s.now code) s.tasks,
          now := s.now + 1 } id = some t :=
        getTask_setStatus_frame hget i .Running (toFinished s.now code)
          (fun u => rfl) hneR
      refine ⟨t, getTask_promote_frame hmid hneQ, hst, hsa, hec, ?_⟩
      rw [promote_logs]
      exact hlogs
    · rw [finishTask_notRun code hr]
      exact ⟨t, hget, hst, hsa, hec, hlogs⟩
  | spawnFail i msg =>
    show CancelFresh (spawnFailTask i msg s) id
    by_cases hr : taskIsRunning s i = true
    · rw [spawnFailTask_run msg hr]
      obtain ⟨u, hgu, hu⟩ := taskIsRunning_iff.mp hr
      have hne : i ≠ id := by
        intro hc
        rw [hc, hget] at hgu
        have htu : t = u := Option.some.inj hgu
        rw [← htu, hst] at hu
        cases hu
      have hmid : getTask { s with
          tasks := setStatus i .Running (toSpawnFailed s.now) s.tasks,
          logs := s.logs ++ [{ taskId := i, stream := "stderr", line := msg }],
          now := s.now + 1 } id = some t :=
        getTask_setStatus_frame hget i .Running (toSpawnFailed s.now)
          (fun u => rfl) hneR
      refine ⟨t, getTask_promote_frame hmid hneQ, hst, hsa, hec, ?_⟩
      rw [promote_logs]
      show taskLogsFor (s.logs ++ [{ taskId := i, stream := "stderr", line := msg }]) id = []
      rw [taskLogsFor_append, hlogs]
      rw [taskLogsFor_eq_nil (fun l hl => by rw [List.mem_singleton.mp hl]; exact hne)]
      rfl
    · rw [spawnFailTask_notRun msg hr]
      exact ⟨t, hget, hst, hsa, hec, hlogs⟩
  | emit i stm ln =>
    show CancelFresh (emitLog i stm ln s) id
    by_cases hr : taskIsRunning s i = true
    · rw [emitLog_run stm ln hr]
      obtain ⟨u, hgu, hu⟩ := taskIsRunning_iff.mp hr
      have hne : i ≠ id := by
        intro hc
        rw [hc, hget] at hgu
        have htu : t = u := Option.some.inj hgu
        rw [← htu, hst] at hu
        cases hu
      refine ⟨t, hget, hst, hsa, hec, ?_⟩
      show taskLogsFor (s.logs ++ [{ taskId := i, stream := stm, line := ln }]) id = []
      rw [taskLogsFor_append, hlogs]
      rw [taskLogsFor_eq_nil (fun l hl => by rw [List.mem_singleton.mp hl]; exact hne)]
      rfl
    · rw [emitLog_notRun stm ln hr]
      exact ⟨t, hget, hst, hsa, hec, hlogs⟩
  | setLimit n =>
    exact ⟨t, hget, hst, hsa, hec, hlogs⟩

theorem cancelFresh_runOps {s : SchedState} {id : Nat}
    (h : CancelFresh s id) (ops : List Op) : CancelFresh (runOps s ops) id := by
  induction ops generalizing s with
  | nil => exact h
  | cons op rest ih =>
    show CancelFresh (runOps (applyOp s op) rest) id
    exact ih (cancelFresh_applyOp h op)

end CodexCore

namespace CodexCore

theorem listTaskLogs_applyOp (s : SchedState) (op : Op) (id : Nat) :
    listTaskLogs (applyOp s op) id =
      listTaskLogs s id ++
        (match op with
         | .emit i st ln =>
           if i = id ∧ taskIsRunning s i = true then
             [({ taskId := i, stream := st, line := ln } : LogLine)]
           else []
         | .spawnFail i msg =>
           if i = id ∧ taskIsRunning s i = true then
             [({ taskId := i, stream := "stderr", line := msg } : LogLine)]
           else []
         | _ => ([] : List LogLine)) := by
  cases op with
  | submit p th c cw sh cd =>
    rw [List.append_nil]
    show listTaskLogs (match submitTask p th c cw sh cd s with
      | .error _ => s
      | .ok (_, s2) => s2) id = listTaskLogs s id
    cases hg : permissionGate p c cd with
    | Reject =>
      rw [submitTask_reject hg]
    | Allow =>
      by_cases hc : countRunning s.tasks < s.limit
      · rw [submitTask_allow_running hg hc]
        rfl
      · rw [submitTask_allow_queued hg hc]
        rfl
  | cancel i =>
    rw [List.append_nil]
    show listTaskLogs (cancelTask i s).2 id = listTaskLogs s id
    cases hgi : getTask s i with
    | none => rw [cancelTask_notFound hgi]
    | some v =>
      cases hstv : v.status with
      | Queued =>
        rw [cancelTask_queued hgi hstv]
        rfl
      | Running =>
        rw [cancelTask_running hgi hstv]
        show taskLogsFor (promote { s with
          tasks := setStatus i .Running (toCancelled s.now) s.tasks,
          now := s.now + 1 }).logs id = listTaskLogs s id
        rw [promote_logs]
        rfl
      | Succeeded => rw [cancelTask_terminal hgi (by rw [hstv]; rfl)]
      | Failed => rw [cancelTask_terminal hgi (by rw [hstv]; rfl)]
      | Cancelled => rw [cancelTask_terminal hgi (by rw [hstv]; rfl)]
  | finish i code =>
    rw [List.append_nil]
    show listTaskLogs (finishTask i code s) id = listTaskLogs s id
    by_cases hr : taskIsRunning s i = true
    · rw [finishTask_run code hr]
      show taskLogsFor (promote { s with
        tasks := setStatus i .Running (toFinished s.now code) s.tasks,
        now := s.now + 1 }).logs id = listTaskLogs s id
      rw [promote_logs]
      rfl
    · rw [finishTask_notRun code hr]
  | spawnFail i msg =>
    show listTaskLogs (spawnFailTask i msg s) id = listTaskLogs s id ++
      (if i = id ∧ taskIsRunning s i = true then
        [({ taskId := i, stream := "stderr", line := msg } : LogLine)] else [])
    by_cases hr : taskIsRunning s i = true
    · rw [spawnFailTask_run msg hr]
      show taskLogsFor (promote { s with
        tasks := setStatus i .Running (toSpawnFailed s.now) s.tasks,
        logs := s.logs ++ [{ taskId := i, stream := "stderr", line := msg }],
        now := s.now + 1 }).logs id = _
      rw [promote_logs]
      show taskLogsFor (s.logs ++ [{ taskId := i, stream := "stderr", line := msg }]) id = _
      rw [taskLogsFor_append]
      by_cases hii : i = id
      · rw [if_pos ⟨hii, hr⟩]
        subst hii
        rw [taskLogsFor_single_eq]
        rfl
      · rw [if_neg (fun hc => hii hc.1)]
        have hnil : taskLogsFor [({ taskId := i, stream := "stderr", line := msg } : LogLine)] id = [] :=
          taskLogsFor_eq_nil (fun l hl => by rw [List.mem_singleton.mp hl]; exact hii)
        rw [hnil]
        rfl
    · rw [spawnFailTask_notRun msg hr]
      rw [if_neg (fun hc => hr hc.2)]
      rw [List.append_nil]
  | emit i stm ln =>
    show listTaskLogs (emitLog i stm ln s) id = listTaskLogs s id ++
      (if i = id ∧ taskIsRunning s i = true then
        [({ taskId := i, stream := stm, line := ln } : LogLine)] else [])
    by_cases hr : taskIsRunning s i = true
    · rw [emitLog_run stm ln hr]
      show taskLogsFor (s.logs ++ [{ taskId := i, stream := stm, line := ln }]) id = _
      rw [taskLogsFor_append]
      by_cases hii : i = id
      · rw [if_pos ⟨hii, hr⟩]
        subst hii
        rw [taskLogsFor_single_eq]
        rfl
      · rw [if_neg (fun hc => hii hc.1)]
        have hnil : taskLogsFor [({ taskId := i, stream := stm, line := ln } : LogLine)] id = [] :=
          taskLogsFor_eq_nil (fun l hl => by rw [List.mem_singleton.mp hl]; exact hii)
        rw [hnil]
        rfl
    · rw [emitLog_notRun stm ln hr]
      rw [if_neg (fun hc => hr hc.2)]
      rw [List.append_nil]
  | setLimit n =>
    rw [List.append_nil]
    rfl

theorem listTaskLogs_runOps (s : SchedState) (ops : List Op) (id : Nat) :
    listTaskLogs (runOps s ops) id = listTaskLogs s id ++ emitsFor s ops id := by
  induction ops generalizing s with
  | nil =>
    show listTaskLogs s id = listTaskLogs s id ++ emitsFor s [] id
    rw [emitsFor, List.append_nil]
  | cons op rest ih =>
    show listTaskLogs (runOps (applyOp s op) rest) id = _
    rw [ih (applyOp s op), listTaskLogs_applyOp s op id, List.append_assoc]
    rfl

end CodexCore

namespace CodexCore

theorem validTransition_to_queued (a : TaskStatus) :
    validTransition a .Queued = false := by
  cases a <;> rfl

theorem emitsFor_eq_nil_of_terminal {s : SchedState} {id : Nat} {st : TaskStatus}
    (h1 : statusOfTask s id = some st) (hterm : st.isTerminal = true) (ops : List Op) :
    emitsFor s ops id = [] := by
  induction ops generalizing s with
  | nil => rfl
  | cons op rest ih =>
    have hrec := ih (statusOf_terminal_applyOp op h1 hterm)
    obtain ⟨t0, hget0, hst0⟩ := statusOfTask_eq_some.mp h1
    have hnr : ¬taskIsRunning s id = true := by
      apply taskIsRunning_eq_false_of hget0
      rw [hst0]
      intro hc
      rw [hc] at hterm
      cases hterm
    cases op with
    | emit i stm ln =>
      show (if i = id ∧ taskIsRunning s i = true then
        [({ taskId := i, stream := stm, line := ln } : LogLine)] else []) ++
        emitsFor (applyOp s (.emit i stm ln)) rest id = []
      rw [if_neg (fun hc : i = id ∧ taskIsRunning s i = true => hnr (hc.1 ▸ hc.2)), hrec]
      rfl
    | spawnFail i msg =>
      show (if i = id ∧ taskIsRunning s i = true then
        [({ taskId := i, stream := "stderr", line := msg } : LogLine)] else []) ++
        emitsFor (applyOp s (.spawnFail i msg)) rest id = []
      rw [if_neg (fun hc : i = id ∧ taskIsRunning s i = true => hnr (hc.1 ▸ hc.2)), hrec]
      rfl
    | submit p th c cw sh cd =>
      show [] ++ emitsFor (applyOp s (.submit p th c cw sh cd)) rest id = []
      rw [hrec]
      rfl
    | cancel i =>
      show [] ++ emitsFor (applyOp s (.cancel i)) rest id = []
      rw [hrec]
      rfl
    | finish i code =>
      show [] ++ emitsFor (applyOp s (.finish i code)) rest id = []
      rw [hrec]
      rfl
    | setLimit n =>
      show [] ++ emitsFor (applyOp s (.setLimit n)) rest id = []
      rw [hrec]
      rfl

theorem queuedHead_oldest {s : SchedState} (hInv : Inv s) {h : Nat} {rest : List Nat}
    (hw : s.waiting = h :: rest) :
    ∃ q0, getTask s h = some q0 ∧ q0.status = .Queued ∧
      ∀ t ∈ s.tasks, t.status = .Queued → q0.createdAt ≤ t.createdAt := by
  have hq : queuedIds s.tasks = h :: rest := hInv.waitEq.symm.trans hw
  obtain ⟨q0, qrest, hfil, hq0id, hqrest⟩ := filter_queued_cons_of hq
  have hq0mem : q0 ∈ s.tasks ∧ (q0.status == TaskStatus.Queued) = true :=
    List.mem_filter.mp (hfil ▸ List.mem_cons_self q0 qrest)
  have hq0st : q0.status = .Queued := by
    have := hq0mem.2
    simpa [beq_iff_eq] using this
  refine ⟨q0, find?_eq_of_mem_nodup hInv.nodup hq0mem.1 hq0id, hq0st, ?_⟩
  intro t ht hts
  have htfil : t ∈ q0 :: qrest := by
    rw [← hfil]
    exact List.mem_filter.mpr ⟨ht, by simp [beq_iff_eq, hts]⟩
  have hpair : (q0 :: qrest).Pairwise (fun a b => a.createdAt < b.createdAt) := by
    rw [← hfil]
    exact hInv.sorted.sublist (List.filter_sublist s.tasks)
  rcases List.mem_cons.mp htfil with rfl | h2
  · exact Nat.le_refl _
  · exact Nat.le_of_lt ((List.pairwise_cons.mp hpair).1 t h2)

theorem not_mem_filter_bne (l : List Nat) (id : Nat) :
    id ∉ l.filter (fun x => !(x == id)) := by
  intro hmem
  have := List.mem_filter.mp hmem
  simp at this

end CodexCore

namespace CodexCore

/-- Claim C1, counterexample: the claim as stated is false. From a reachable
state with one running task under limit 1, a `set_max_parallel_tasks 0` call
leaves the task running (the spec says the new limit takes effect for future
admissions only and does not preempt), so the running count 1 exceeds the
currently configured limit 0. -/
theorem claim_C1_counterexample :
    ¬(countRunning (runOps (initState 1)
        [Op.submit PermissionMode.normal 0 "echo hi" "C:/work" "powershell" false,
         Op.setLimit 0]).tasks ≤
      (runOps (initState 1)
        [Op.submit PermissionMode.normal 0 "echo hi" "C:/work" "powershell" false,
         Op.setLimit 0]).limit) := by
  decide

/-- Claim C1 (amended): for every sequence of submit, cancel, process-exit,
spawn-failure, output and concurrency-limit operations in which every
`set_max_parallel_tasks` call sets the limit to at least the number of tasks
running at that moment, the number of `Running` tasks in the resulting state
never exceeds the currently configured limit.  (The unrestricted claim fails
only because lowering the limit below the current running count does not
preempt running tasks.) -/
theorem claim_C1_running_le_limit (L : Nat) (ops : List Op)
    (hsafe : safeOps (initState L) ops = true) :
    countRunning (runOps (initState L) ops).tasks ≤ (runOps (initState L) ops).limit :=
  countRunning_le_runOps (inv_initState L) (by simp [initState, countRunning]) hsafe

/-- Witness for the amended claim C1 at a concrete operation sequence that
admits, queues, raises the limit and finishes tasks. -/
theorem claim_C1_running_le_limit_witness :
    safeOps (initState 1)
      [Op.submit PermissionMode.normal 0 "echo a" "C:/w" "powershell" false,
       Op.submit PermissionMode.normal 0 "echo b" "C:/w" "powershell" false,
       Op.setLimit 2, Op.finish 0 0] = true ∧
    countRunning (runOps (initState 1)
      [Op.submit PermissionMode.normal 0 "echo a" "C:/w" "powershell" false,
       Op.submit PermissionMode.normal 0 "echo b" "C:/w" "powershell" false,
       Op.setLimit 2, Op.finish 0 0]).tasks ≤
    (runOps (initState 1)
      [Op.submit PermissionMode.normal 0 "echo a" "C:/w" "powershell" false,
       Op.submit PermissionMode.normal 0 "echo b" "C:/w" "powershell" false,
       Op.setLimit 2, Op.finish 0 0]).limit :=
  ⟨by decide, claim_C1_running_le_limit 1 _ (by decide)⟩

/-- Claim C2: across any single operation, every existing task's status
either stays unchanged or takes one allowed edge of
`Queued → Running → ⟦Succeeded, Failed, Cancelled⟧` or `Queued → Cancelled`;
a task in a terminal state never changes again, and no task ever returns to
`Queued` after leaving it. -/
theorem claim_C2_status_monotonic (s : SchedState) (op : Op) (id : Nat)
    (st st' : TaskStatus) (h1 : statusOfTask s id = some st)
    (h2 : statusOfTask (applyOp s op) id = some st') :
    (st' = st ∨ validTransition st st' = true) ∧
    (st.isTerminal = true → st' = st) ∧
    (st ≠ .Queued → st' ≠ .Queued) := by
  refine ⟨statusOf_applyOp_step op h1 h2, ?_, ?_⟩
  · intro hterm
    have h3 := statusOf_terminal_applyOp op h1 hterm
    rw [h2] at h3
    exact Option.some.inj h3
  · intro hne hq
    rcases statusOf_applyOp_step op h1 h2 with he | hv
    · rw [hq] at he
      exact hne he.symm
    · rw [hq, validTransition_to_queued] at hv
      cases hv

/-- Witness for claim C2: a concrete running task finishing with exit code 0
takes the edge `Running → Succeeded`. -/
theorem claim_C2_status_monotonic_witness :
    statusOfTask (runOps (initState 1)
      [Op.submit PermissionMode.normal 0 "echo a" "C:/w" "powershell" false]) 0 =
        some .Running ∧
    statusOfTask (applyOp (runOps (initState 1)
      [Op.submit PermissionMode.normal 0 "echo a" "C:/w" "powershell" false])
      (Op.finish 0 0)) 0 = some .Succeeded ∧
    ((TaskStatus.Succeeded = TaskStatus.Running ∨
      validTransition .Running .Succeeded = true) ∧
     (TaskStatus.Running.isTerminal = true → TaskStatus.Succeeded = .Running) ∧
     (TaskStatus.Running ≠ .Queued → TaskStatus.Succeeded ≠ .Queued)) :=
  ⟨by decide, by decide,
   claim_C2_status_monotonic (runOps (initState 1)
     [Op.submit PermissionMode.normal 0 "echo a" "C:/w" "powershell" false])
     (Op.finish 0 0) 0 .Running .Succeeded (by decide) (by decide)⟩

/-- Claim C3: on a thread whose execution policy is `danger-confirm`, a
destructive command submitted without `confirmDestructive = true` fails with
`PermissionRequired` and mutates nothing (no task is created); the same
submission with confirmation succeeds and creates exactly one task, appended
to the registry. -/
theorem claim_C3_danger_confirm (s : SchedState) (th : Nat) (cmd cw sh : String)
    (hdes : isDestructiveCommand cmd = true) :
    submitTask .dangerConfirm th cmd cw sh false s = .error .PermissionRequired ∧
    applyOp s (.submit .dangerConfirm th cmd cw sh false) = s ∧
    ∃ t s2, submitTask .dangerConfirm th cmd cw sh true s = .ok (t, s2) ∧
      s2.tasks = s.tasks ++ [t] := by
  have hgateF : permissionGate .dangerConfirm cmd false = .Reject := by
    unfold permissionGate
    rw [if_pos hdes]
    rfl
  have hgateT : permissionGate .dangerConfirm cmd true = .Allow := by
    unfold permissionGate
    rw [if_pos hdes]
    rfl
  refine ⟨submitTask_reject hgateF, ?_, ?_⟩
  · show (match submitTask .dangerConfirm th cmd cw sh false s with
      | .error _ => s
      | .ok (_, s2) => s2) = s
    rw [submitTask_reject hgateF]
  · by_cases hc : countRunning s.tasks < s.limit
    · exact ⟨_, _, submitTask_allow_running hgateT hc, rfl⟩
    · exact ⟨_, _, submitTask_allow_queued hgateT hc, rfl⟩

/-- Witness for claim C3 at the destructive command `rm -rf build` on a
concrete state. -/
theorem claim_C3_danger_confirm_witness :
    isDestructiveCommand "rm -rf build" = true ∧
    submitTask .dangerConfirm 0 "rm -rf build" "C:/w" "powershell" false (initState 2) =
      .error .PermissionRequired ∧
    applyOp (initState 2) (.submit .dangerConfirm 0 "rm -rf build" "C:/w" "powershell" false) =
      initState 2 ∧
    ∃ t s2, submitTask .dangerConfirm 0 "rm -rf build" "C:/w" "powershell" true (initState 2) =
      .ok (t, s2) ∧ s2.tasks = (initState 2).tasks ++ [t] := by
  have h := claim_C3_danger_confirm (initState 2) 0 "rm -rf build" "C:/w" "powershell" (by decide)
  exact ⟨by decide, h.1, h.2.1, h.2.2⟩

end CodexCore

namespace CodexCore

/-- Claim C4: when a running task's process exits with a code, the code is
recorded in `exitCode` and the terminal status is `Succeeded` exactly when
the code is zero, `Failed` otherwise; when spawning fails, the task goes
straight to `Failed` with the synthetic non-zero exit code and exactly one
synthetic stderr line; the submission call itself never throws for this (in
the model the spawn failure is the total executor event `spawnFailTask`, not
an error of `submitTask`, whose only error is `PermissionRequired`). -/
theorem claim_C4_exit_codes (s : SchedState) (id : Nat) (code : Int) (msg : String)
    (hr : taskIsRunning s id = true) :
    (statusOfTask (finishTask id code s) id =
        some (if code = 0 then .Succeeded else .Failed) ∧
     exitCodeOf (finishTask id code s) id = some (some code) ∧
     ((if code = 0 then TaskStatus.Succeeded else TaskStatus.Failed) = .Succeeded ↔
        code = 0)) ∧
    (listTaskLogs s id = [] →
     statusOfTask (spawnFailTask id msg s) id = some .Failed ∧
     exitCodeOf (spawnFailTask id msg s) id = some (some spawnFailureCode) ∧
     spawnFailureCode ≠ 0 ∧
     listTaskLogs (spawnFailTask id msg s) id =
       [{ taskId := id, stream := "stderr", line := msg }]) := by
  obtain ⟨t0, hget, hst⟩ := taskIsRunning_iff.mp hr
  obtain ⟨hmem, hid⟩ := getTask_mem hget
  have hgmidF : getTask { s with
      tasks := setStatus id .Running (toFinished s.now code) s.tasks,
      now := s.now + 1 } id = some (toFinished s.now code t0) := by
    have h := statusOf_some_setStatus hget id .Running (toFinished s.now code) (fun u => rfl)
    rwa [if_pos ⟨hid, hst⟩] at h
  have hgpF : getTask (promote { s with
      tasks := setStatus id .Running (toFinished s.now code) s.tasks,
      now := s.now + 1 }) id = some (toFinished s.now code t0) :=
    getTask_promote_frame hgmidF
      (by by_cases hcode : code = 0 <;> simp [hcode])
  have hgmidS : getTask { s with
      tasks := setStatus id .Running (toSpawnFailed s.now) s.tasks,
      logs := s.logs ++ [{ taskId := id, stream := "stderr", line := msg }],
      now := s.now + 1 } id = some (toSpawnFailed s.now t0) := by
    have h := statusOf_some_setStatus hget id .Running (toSpawnFailed s.now) (fun u => rfl)
    rwa [if_pos ⟨hid, hst⟩] at h
  have hgpS : getTask (promote { s with
      tasks := setStatus id .Running (toSpawnFailed s.now) s.tasks,
      logs := s.logs ++ [{ taskId := id, stream := "stderr", line := msg }],
      now := s.now + 1 }) id = some (toSpawnFailed s.now t0) :=
    getTask_promote_frame hgmidS (by simp)
  refine ⟨⟨?_, ?_, ?_⟩, ?_⟩
  · rw [finishTask_run code hr]
    simp only [statusOfTask]
    rw [hgpF]
    simp
  · rw [finishTask_run code hr]
    simp only [exitCodeOf]
    rw [hgpF]
    simp
  · by_cases hcode : code = 0 <;> simp [hcode]
  · intro hlogs0
    refine ⟨?_, ?_, by decide, ?_⟩
    · rw [spawnFailTask_run msg hr]
      simp only [statusOfTask]
      rw [hgpS]
      simp
    · rw [spawnFailTask_run msg hr]
      simp only [exitCodeOf]
      rw [hgpS]
      simp
    · have hlogsEq : listTaskLogs (spawnFailTask id msg s) id =
        listTaskLogs s id ++
          (if id = id ∧ taskIsRunning s id = true then
            [({ taskId := id, stream := "stderr", line := msg } : LogLine)]
          else []) := listTaskLogs_applyOp s (.spawnFail id msg) id
      rw [hlogs0, if_pos ⟨rfl, hr⟩] at hlogsEq
      rw [hlogsEq]
      rfl

/-- Witness for claim C4 on a concrete running task: process exit with code
3 records `exitCode = 3` and status `Failed`; a spawn failure records the
synthetic code and one stderr line. -/
theorem claim_C4_exit_codes_witness :
    taskIsRunning (runOps (initState 1)
      [Op.submit PermissionMode.normal 0 "node x.js" "C:/w" "powershell" false]) 0 = true ∧
    statusOfTask (finishTask 0 3 (runOps (initState 1)
      [Op.submit PermissionMode.normal 0 "node x.js" "C:/w" "powershell" false])) 0 =
      some (if (3 : Int) = 0 then .Succeeded else .Failed) ∧
    exitCodeOf (finishTask 0 3 (runOps (initState 1)
      [Op.submit PermissionMode.normal 0 "node x.js" "C:/w" "powershell" false])) 0 =
      some (some 3) ∧
    statusOfTask (spawnFailTask 0 "spawn failed" (runOps (initState 1)
      [Op.submit PermissionMode.normal 0 "node x.js" "C:/w" "powershell" false])) 0 =
      some .Failed ∧
    listTaskLogs (spawnFailTask 0 "spawn failed" (runOps (initState 1)
      [Op.submit PermissionMode.normal 0 "node x.js" "C:/w" "powershell" false])) 0 =
      [{ taskId := 0, stream := "stderr", line := "spawn failed" }] := by
  have h := claim_C4_exit_codes (runOps (initState 1)
    [Op.submit PermissionMode.normal 0 "node x.js" "C:/w" "powershell" false])
    0 3 "spawn failed" (by decide)
  have h2 := h.2 (by decide)
  exact ⟨by decide, h.1.1, h.1.2.1, h2.1, h2.2.2.2⟩

end CodexCore

namespace CodexCore

/-- Claim C5: cancelling a `Queued` task (in any well-formed scheduler
state) reports success, removes the task from the waiting list and moves it
straight to `Cancelled`; its command is never executed: after any further
sequence of operations its status is still `Cancelled`, its `exitCode` is
never set and `list_task_logs` for it stays empty. -/
theorem claim_C5_cancel_queued (s : SchedState) (id : Nat) (hInv : Inv s)
    (hq : statusOfTask s id = some .Queued) :
    (cancelTask id s).1 = .Ok ∧
    id ∉ (cancelTask id s).2.waiting ∧
    statusOfTask (cancelTask id s).2 id = some .Cancelled ∧
    ∀ ops, statusOfTask (runOps (cancelTask id s).2 ops) id = some .Cancelled ∧
      exitCodeOf (runOps (cancelTask id s).2 ops) id = some none ∧
      listTaskLogs (runOps (cancelTask id s).2 ops) id = [] := by
  obtain ⟨t0, hget, hst⟩ := statusOfTask_eq_some.mp hq
  obtain ⟨hmem, hid⟩ := getTask_mem hget
  have hc := cancelTask_queued hget hst
  have hfr := hInv.fresh t0 hmem (Or.inl hst)
  have hg2 : getTask (cancelTask id s).2 id = some (toCancelled s.now t0) := by
    rw [hc]
    have h := statusOf_some_setStatus hget id .Queued (toCancelled s.now) (fun u => rfl)
    rwa [if_pos ⟨hid, hst⟩] at h
  have hcf : CancelFresh (cancelTask id s).2 id := by
    refine ⟨toCancelled s.now t0, hg2, rfl, ?_, ?_, ?_⟩
    · show t0.startedAt = none
      exact hfr.1
    · show t0.exitCode = none
      exact hfr.2.1
    · rw [hc]
      show taskLogsFor s.logs id = []
      rw [← hid]
      exact hfr.2.2
  refine ⟨?_, ?_, ?_, ?_⟩
  · rw [hc]
  · rw [hc]
    exact not_mem_filter_bne s.waiting id
  · exact statusOfTask_eq_some.mpr ⟨_, hg2, rfl⟩
  · intro ops
    obtain ⟨t, hgt, hstt, hsat, hect, hlt⟩ := cancelFresh_runOps hcf ops
    refine ⟨statusOfTask_eq_some.mpr ⟨t, hgt, hstt⟩, ?_, hlt⟩
    simp only [exitCodeOf]
    rw [hgt]
    simp [hect]

/-- Witness for claim C5: the second of two tasks submitted under limit 1 is
`Queued`; cancelling it yields `Cancelled` with no exit code and no logs,
and it stays that way across further operations. -/
theorem claim_C5_cancel_queued_witness :
    statusOfTask (runOps (initState 1)
      [Op.submit PermissionMode.normal 0 "echo a" "C:/w" "powershell" false,
       Op.submit PermissionMode.normal 0 "echo b" "C:/w" "powershell" false]) 1 =
      some .Queued ∧
    (cancelTask 1 (runOps (initState 1)
      [Op.submit PermissionMode.normal 0 "echo a" "C:/w" "powershell" false,
       Op.submit PermissionMode.normal 0 "echo b" "C:/w" "powershell" false])).1 = .Ok ∧
    statusOfTask (runOps (cancelTask 1 (runOps (initState 1)
      [Op.submit PermissionMode.normal 0 "echo a" "C:/w" "powershell" false,
       Op.submit PermissionMode.normal 0 "echo b" "C:/w" "powershell" false])).2
      [Op.finish 0 0, Op.emit 1 "stdout" "late"]) 1 = some .Cancelled ∧
    listTaskLogs (runOps (cancelTask 1 (runOps (initState 1)
      [Op.submit PermissionMode.normal 0 "echo a" "C:/w" "powershell" false,
       Op.submit PermissionMode.normal 0 "echo b" "C:/w" "powershell" false])).2
      [Op.finish 0 0, Op.emit 1 "stdout" "late"]) 1 = [] := by
  have h := claim_C5_cancel_queued (runOps (initState 1)
      [Op.submit PermissionMode.normal 0 "echo a" "C:/w" "powershell" false,
       Op.submit PermissionMode.normal 0 "echo b" "C:/w" "powershell" false]) 1
    (inv_runOps 1 _) (by decide)
  have h4 := h.2.2.2 [Op.finish 0 0, Op.emit 1 "stdout" "late"]
  exact ⟨by decide, h.1, h4.1, h4.2.2⟩

theorem terminalPromote_spec {s : SchedState} (id : Nat) (f : Task → Task)
    {s2 : SchedState} (hInv2 : Inv s2)
    (hs2t : s2.tasks = setStatus id .Running f s.tasks)
    (hs2w : s2.waiting = s.waiting) (hs2l : s2.limit = s.limit)
    {h : Nat} {rest : List Nat} (hw : s.waiting = h :: rest)
    (hdec : countRunning (setStatus id .Running f s.tasks) + 1 = countRunning s.tasks)
    (hle : countRunning s.tasks ≤ s.limit) :
    (promote s2).waiting = rest ∧
    statusOfTask (promote s2) h = some .Running ∧
    countRunning (promote s2).tasks = countRunning s.tasks := by
  have hw2 : s2.waiting = h :: rest := hs2w.trans hw
  have hc2 : countRunning s2.tasks < s2.limit := by
    rw [hs2t, hs2l]
    omega
  have hps := promote_spec hInv2 hw2 hc2
  refine ⟨hps.1, hps.2.1, ?_⟩
  rw [hps.2.2.1, hs2t]
  exact hdec

/-- Claim C6: queued tasks form one global FIFO in submission order, not
partitioned by thread.  Whenever any task reaches a terminal state — normal
process exit, cancellation of a running task, or spawn failure — the
running count is decremented and, if the waiting list is non-empty and the
count is below the limit, exactly the head of the waiting list is promoted
to `Running`; that head is the oldest `Queued` task (smallest creation
time) across all threads. -/
theorem claim_C6_fifo_promotion (s : SchedState) (id : Nat) (code : Int) (msg : String)
    (h : Nat) (rest : List Nat) (hInv : Inv s) (hr : taskIsRunning s id = true)
    (hw : s.waiting = h :: rest) (hle : countRunning s.tasks ≤ s.limit) :
    ((finishTask id code s).waiting = rest ∧
     statusOfTask (finishTask id code s) h = some .Running ∧
     countRunning (finishTask id code s).tasks = countRunning s.tasks ∧
     countRunning (setStatus id .Running (toFinished s.now code) s.tasks) + 1 =
       countRunning s.tasks) ∧
    (((cancelTask id s).2).waiting = rest ∧
     statusOfTask (cancelTask id s).2 h = some .Running ∧
     countRunning ((cancelTask id s).2).tasks = countRunning s.tasks ∧
     countRunning (setStatus id .Running (toCancelled s.now) s.tasks) + 1 =
       countRunning s.tasks) ∧
    ((spawnFailTask id msg s).waiting = rest ∧
     statusOfTask (spawnFailTask id msg s) h = some .Running ∧
     countRunning (spawnFailTask id msg s).tasks = countRunning s.tasks ∧
     countRunning (setStatus id .Running (toSpawnFailed s.now) s.tasks) + 1 =
       countRunning s.tasks) ∧
    ∃ q0, getTask s h = some q0 ∧ q0.status = .Queued ∧
      ∀ t ∈ s.tasks, t.status = .Queued → q0.createdAt ≤ t.createdAt := by
  obtain ⟨t0, hget, hst⟩ := taskIsRunning_iff.mp hr
  obtain ⟨hmem, hid⟩ := getTask_mem hget
  have hdecF : countRunning (setStatus id .Running (toFinished s.now code) s.tasks) + 1 =
      countRunning s.tasks :=
    countRunning_setStatus_pred id (toFinished s.now code)
      (fun u => by by_cases hcode : code = 0 <;> simp [hcode]) s.tasks hInv.nodup
      ⟨t0, hmem, hid, hst⟩
  have hdecC : countRunning (setStatus id .Running (toCancelled s.now) s.tasks) + 1 =
      countRunning s.tasks :=
    countRunning_setStatus_pred id (toCancelled s.now)
      (fun u => by simp) s.tasks hInv.nodup ⟨t0, hmem, hid, hst⟩
  have hdecS : countRunning (setStatus id .Running (toSpawnFailed s.now) s.tasks) + 1 =
      countRunning s.tasks :=
    countRunning_setStatus_pred id (toSpawnFailed s.now)
      (fun u => by simp) s.tasks hInv.nodup ⟨t0, hmem, hid, hst⟩
  have hInvF : Inv { s with
      tasks := setStatus id .Running (toFinished s.now code) s.tasks,
      now := s.now + 1 } := by
    have h3 := inv_terminalCore (toFinished s.now code) []
      (fun u => rfl) (fun u => rfl)
      (fun u => by by_cases hcode : code = 0 <;> simp [hcode])
      (fun u => by by_cases hcode : code = 0 <;> simp [hcode])
      (fun u => rfl) hInv hr (fun l hl => by cases hl)
    rwa [List.append_nil] at h3
  have hInvC : Inv { s with
      tasks := setStatus id .Running (toCancelled s.now) s.tasks,
      now := s.now + 1 } := by
    have h3 := inv_terminalCore (toCancelled s.now) []
      (fun u => rfl) (fun u => rfl) (fun u => by simp) (fun u => by simp)
      (fun u => rfl) hInv hr (fun l hl => by cases hl)
    rwa [List.append_nil] at h3
  have hInvS : Inv { s with
      tasks := setStatus id .Running (toSpawnFailed s.now) s.tasks,
      logs := s.logs ++ [{ taskId := id, stream := "stderr", line := msg }],
      now := s.now + 1 } :=
    inv_terminalCore (toSpawnFailed s.now)
      [{ taskId := id, stream := "stderr", line := msg }]
      (fun u => rfl) (fun u => rfl) (fun u => by simp) (fun u => by simp)
      (fun u => rfl) hInv hr (fun l hl => by rw [List.mem_singleton.mp hl])
  have hF := terminalPromote_spec id (toFinished s.now code) hInvF rfl rfl rfl hw hdecF hle
  have hC := terminalPromote_spec id (toCancelled s.now) hInvC rfl rfl rfl hw hdecC hle
  have hS := terminalPromote_spec id (toSpawnFailed s.now) hInvS rfl rfl rfl hw hdecS hle
  refine ⟨?_, ?_, ?_, queuedHead_oldest hInv hw⟩
  · rw [finishTask_run code hr]
    exact ⟨hF.1, hF.2.1, hF.2.2, hdecF⟩
  · rw [cancelTask_running hget hst]
    exact ⟨hC.1, hC.2.1, hC.2.2, hdecC⟩
  · rw [spawnFailTask_run msg hr]
    exact ⟨hS.1, hS.2.1, hS.2.2, hdecS⟩

/-- Witness for claim C6: limit 1, three submissions from two threads; the
running task (id 0) reaching a terminal state by normal exit, by
cancellation, or by spawn failure each promotes exactly the oldest queued
task (id 1). -/
theorem claim_C6_fifo_promotion_witness :
    taskIsRunning (runOps (initState 1)
      [Op.submit PermissionMode.normal 0 "echo a" "C:/w" "powershell" false,
       Op.submit PermissionMode.normal 1 "echo b" "C:/w" "powershell" false,
       Op.submit PermissionMode.normal 0 "echo c" "C:/w" "powershell" false]) 0 = true ∧
    (runOps (initState 1)
      [Op.submit PermissionMode.normal 0 "echo a" "C:/w" "powershell" false,
       Op.submit PermissionMode.normal 1 "echo b" "C:/w" "powershell" false,
       Op.submit PermissionMode.normal 0 "echo c" "C:/w" "powershell" false]).waiting =
      1 :: [2] ∧
    (finishTask 0 0 (runOps (initState 1)
      [Op.submit PermissionMode.normal 0 "echo a" "C:/w" "powershell" false,
       Op.submit PermissionMode.normal 1 "echo b" "C:/w" "powershell" false,
       Op.submit PermissionMode.normal 0 "echo c" "C:/w" "powershell" false])).waiting = [2] ∧
    statusOfTask (finishTask 0 0 (runOps (initState 1)
      [Op.submit PermissionMode.normal 0 "echo a" "C:/w" "powershell" false,
       Op.submit PermissionMode.normal 1 "echo b" "C:/w" "powershell" false,
       Op.submit PermissionMode.normal 0 "echo c" "C:/w" "powershell" false])) 1 =
      some .Running ∧
    statusOfTask (cancelTask 0 (runOps (initState 1)
      [Op.submit PermissionMode.normal 0 "echo a" "C:/w" "powershell" false,
       Op.submit PermissionMode.normal 1 "echo b" "C:/w" "powershell" false,
       Op.submit PermissionMode.normal 0 "echo c" "C:/w" "powershell" false])).2 1 =
      some .Running ∧
    statusOfTask (spawnFailTask 0 "boom" (runOps (initState 1)
      [Op.submit PermissionMode.normal 0 "echo a" "C:/w" "powershell" false,
       Op.submit PermissionMode.normal 1 "echo b" "C:/w" "powershell" false,
       Op.submit PermissionMode.normal 0 "echo c" "C:/w" "powershell" false])) 1 =
      some .Running := by
  have h := claim_C6_fifo_promotion (runOps (initState 1)
      [Op.submit PermissionMode.normal 0 "echo a" "C:/w" "powershell" false,
       Op.submit PermissionMode.normal 1 "echo b" "C:/w" "powershell" false,
       Op.submit PermissionMode.normal 0 "echo c" "C:/w" "powershell" false])
    0 0 "boom" 1 [2] (inv_runOps 1 _) (by decide) (by decide) (by decide)
  exact ⟨by decide, by decide, h.1.1, h.1.2.1, h.2.1.2.1, h.2.2.1.2.1⟩

end CodexCore

namespace CodexCore

/-- Claim C7: the log sink is append-only, so `list_task_logs` for a task
equals its previous value followed by exactly the lines the executor
delivered, in delivery order; consequently the stdout sub-sequence appears
in stdout emission order (and likewise for stderr), and for a task already
in a terminal state re-querying after any further operations returns the
identical sequence. -/
theorem claim_C7_logs_stable_ordered (s : SchedState) (id : Nat) (ops : List Op) :
    listTaskLogs (runOps s ops) id = listTaskLogs s id ++ emitsFor s ops id ∧
    (listTaskLogs (runOps s ops) id).filter (fun l => l.stream == "stdout") =
      (listTaskLogs s id).filter (fun l => l.stream == "stdout") ++
      (emitsFor s ops id).filter (fun l => l.stream == "stdout") ∧
    (∀ st, statusOfTask s id = some st → st.isTerminal = true →
      listTaskLogs (runOps s ops) id = listTaskLogs s id) := by
  refine ⟨listTaskLogs_runOps s ops id, ?_, ?_⟩
  · rw [listTaskLogs_runOps s ops id, List.filter_append]
  · intro st h1 hterm
    rw [listTaskLogs_runOps s ops id, emitsFor_eq_nil_of_terminal h1 hterm,
        List.append_nil]

/-- Witness for claim C7 on a concrete run: the logs of task 0 are exactly
its emissions in order, and they do not change after it finishes. -/
theorem claim_C7_logs_stable_ordered_witness :
    listTaskLogs (runOps (initState 1)
      [Op.submit PermissionMode.normal 0 "echo a" "C:/w" "powershell" false,
       Op.emit 0 "stdout" "one", Op.emit 0 "stderr" "warn", Op.emit 0 "stdout" "two"]) 0 =
      listTaskLogs (initState 1) 0 ++ emitsFor (initState 1)
        [Op.submit PermissionMode.normal 0 "echo a" "C:/w" "powershell" false,
         Op.emit 0 "stdout" "one", Op.emit 0 "stderr" "warn", Op.emit 0 "stdout" "two"] 0 ∧
    TaskStatus.Succeeded.isTerminal = true ∧
    listTaskLogs (runOps (runOps (initState 1)
      [Op.submit PermissionMode.normal 0 "echo a" "C:/w" "powershell" false,
       Op.emit 0 "stdout" "one", Op.emit 0 "stderr" "warn", Op.emit 0 "stdout" "two",
       Op.finish 0 0])
      [Op.emit 0 "stdout" "late", Op.cancel 0]) 0 =
    listTaskLogs (runOps (initState 1)
      [Op.submit PermissionMode.normal 0 "echo a" "C:/w" "powershell" false,
       Op.emit 0 "stdout" "one", Op.emit 0 "stderr" "warn", Op.emit 0 "stdout" "two",
       Op.finish 0 0]) 0 := by
  refine ⟨(claim_C7_logs_stable_ordered (initState 1) 0
    [Op.submit PermissionMode.normal 0 "echo a" "C:/w" "powershell" false,
     Op.emit 0 "stdout" "one", Op.emit 0 "stderr" "warn", Op.emit 0 "stdout" "two"]).1,
    by decide, ?_⟩
  exact (claim_C7_logs_stable_ordered (runOps (initState 1)
      [Op.submit PermissionMode.normal 0 "echo a" "C:/w" "powershell" false,
       Op.emit 0 "stdout" "one", Op.emit 0 "stderr" "warn", Op.emit 0 "stdout" "two",
       Op.finish 0 0]) 0
      [Op.emit 0 "stdout" "late", Op.cancel 0]).2.2 .Succeeded (by decide) (by decide)

/-- Claim C8: cancelling a task that is already in a terminal state is a
no-op reported as `TaskNotCancellable`: the whole scheduler state, and in
particular every recorded field of the task, is returned unchanged, and
repeating the call any number of times still leaves the state unchanged. -/
theorem claim_C8_cancel_terminal_noop (s : SchedState) (id : Nat) (t : Task)
    (hget : getTask s id = some t) (hterm : t.status.isTerminal = true) :
    cancelTask id s = (.TaskNotCancellable, s) ∧
    ∀ n, Nat.iterate (fun s2 => (cancelTask id s2).2) n s = s := by
  have h1 := cancelTask_terminal hget hterm
  refine ⟨h1, ?_⟩
  intro n
  induction n with
  | zero => rfl
  | succ k ih =>
    rw [Function.iterate_succ_apply]
    show Nat.iterate (fun s2 => (cancelTask id s2).2) k (cancelTask id s).2 = s
    rw [h1]
    exact ih

/-- Witness for claim C8: cancelling a succeeded task any number of times
reports `TaskNotCancellable` and changes nothing. -/
theorem claim_C8_cancel_terminal_noop_witness :
    cancelTask 0 (runOps (initState 1)
      [Op.submit PermissionMode.normal 0 "echo a" "C:/w" "powershell" false,
       Op.finish 0 0]) =
      (.TaskNotCancellable, runOps (initState 1)
        [Op.submit PermissionMode.normal 0 "echo a" "C:/w" "powershell" false,
         Op.finish 0 0]) ∧
    Nat.iterate (fun s2 => (cancelTask 0 s2).2) 3 (runOps (initState 1)
      [Op.submit PermissionMode.normal 0 "echo a" "C:/w" "powershell" false,
       Op.finish 0 0]) =
    runOps (initState 1)
      [Op.submit PermissionMode.normal 0 "echo a" "C:/w" "powershell" false,
       Op.finish 0 0] := by
  have h := claim_C8_cancel_terminal_noop (runOps (initState 1)
      [Op.submit PermissionMode.normal 0 "echo a" "C:/w" "powershell" false,
       Op.finish 0 0]) 0
    ((runOps (initState 1)
      [Op.submit PermissionMode.normal 0 "echo a" "C:/w" "powershell" false,
       Op.finish 0 0]).tasks.get ⟨0, by decide⟩)
    (by decide) (by decide)
  exact ⟨h.1, h.2 3⟩

end CodexCore

namespace CodexStore

theorem get_map_eq {α β : Type} (f : α → β) (l : List α) (i : Nat)
    (h : i < l.length) (h2 : i < (l.map f).length) :
    (l.map f).get ⟨i, h2⟩ = f (l.get ⟨i, h⟩) := by
  induction l generalizing i with
  | nil => cases h
  | cons hd tl ih =>
    cases i with
    | zero => rfl
    | succ j => exact ih j (Nat.lt_of_succ_lt_succ h) (Nat.lt_of_succ_lt_succ h2)

theorem onTaskStatus_mismatch {ev : TaskStatusEvent} {s : StoreState}
    (h : ev.threadId ≠ s.activeThreadId) : onTaskStatus ev s = s := by
  unfold onTaskStatus
  rw [if_pos h]

theorem onTaskStatus_match {ev : TaskStatusEvent} {s : StoreState}
    (h : ev.threadId = s.activeThreadId) :
    onTaskStatus ev s =
      { s with
          tasks := s.tasks.map (fun t =>
            if t.id = ev.taskId then
              { t with status := ev.status, exitCode := ev.exitCode }
            else t),
          statusText := "Task " ++ ev.taskId ++ " -> " ++ ev.status } := by
  unfold onTaskStatus
  rw [if_neg (not_not_intro h)]

theorem onTaskLog_mismatch {now : Nat} {rand : String} {ev : TaskLogEvent}
    {s : StoreState} (h : ev.threadId ≠ s.activeThreadId) :
    onTaskLog now rand ev s = s := by
  unfold onTaskLog
  rw [if_pos h]

theorem onTaskLog_notSelected {now : Nat} {rand : String} {ev : TaskLogEvent}
    {s : StoreState} (hth : ev.threadId = s.activeThreadId)
    (hsel : ¬s.selectedTaskId = "") (hne : ev.taskId ≠ s.selectedTaskId) :
    onTaskLog now rand ev s = s := by
  unfold onTaskLog
  rw [if_neg (not_not_intro hth)]
  show (if (if s.selectedTaskId = "" then ev.taskId else s.selectedTaskId) ≠ ev.taskId
    then s else _) = s
  rw [if_neg hsel]
  rw [if_pos (Ne.symm hne)]

theorem onTaskLog_append {now : Nat} {rand : String} {ev : TaskLogEvent}
    {s : StoreState} (hth : ev.threadId = s.activeThreadId)
    (hok : (if s.selectedTaskId = "" then ev.taskId else s.selectedTaskId) = ev.taskId) :
    onTaskLog now rand ev s =
      { s with
          taskLogs := s.taskLogs ++
            [{ id := ev.taskId ++ "-" ++ toString now ++ "-" ++ rand,
               taskId := ev.taskId, stream := ev.stream, line := ev.line,
               createdAt := now }] } := by
  unfold onTaskLog
  rw [if_neg (not_not_intro hth)]
  show (if (if s.selectedTaskId = "" then ev.taskId else s.selectedTaskId) ≠ ev.taskId
    then s else _) = _
  rw [if_neg (not_not_intro hok)]

/-- Claim C9: the `task:status` handler of `state/app-store.ts` ignores
events for a non-active thread entirely, and otherwise rewrites only the
`status` and `exitCode` fields of the task whose id equals the event's
`taskId`: tasks with a different id are returned unchanged, every other
field of the matching task is preserved, and the store's task logs,
selected-task id and active-thread id are untouched. -/
theorem claim_C9_status_event_frame (ev : TaskStatusEvent) (s : StoreState) :
    (ev.threadId ≠ s.activeThreadId → onTaskStatus ev s = s) ∧
    (ev.threadId = s.activeThreadId →
      (onTaskStatus ev s).taskLogs = s.taskLogs ∧
      (onTaskStatus ev s).activeThreadId = s.activeThreadId ∧
      (onTaskStatus ev s).selectedTaskId = s.selectedTaskId ∧
      (onTaskStatus ev s).tasks.length = s.tasks.length ∧
      ∀ i (hi : i < s.tasks.length) (hi2 : i < (onTaskStatus ev s).tasks.length),
        ((s.tasks.get ⟨i, hi⟩).id ≠ ev.taskId →
          (onTaskStatus ev s).tasks.get ⟨i, hi2⟩ = s.tasks.get ⟨i, hi⟩) ∧
        ((s.tasks.get ⟨i, hi⟩).id = ev.taskId →
          ((onTaskStatus ev s).tasks.get ⟨i, hi2⟩).status = ev.status ∧
          ((onTaskStatus ev s).tasks.get ⟨i, hi2⟩).exitCode = ev.exitCode ∧
          ((onTaskStatus ev s).tasks.get ⟨i, hi2⟩).id = (s.tasks.get ⟨i, hi⟩).id ∧
          ((onTaskStatus ev s).tasks.get ⟨i, hi2⟩).threadId = (s.tasks.get ⟨i, hi⟩).threadId ∧
          ((onTaskStatus ev s).tasks.get ⟨i, hi2⟩).command = (s.tasks.get ⟨i, hi⟩).command ∧
          ((onTaskStatus ev s).tasks.get ⟨i, hi2⟩).cwd = (s.tasks.get ⟨i, hi⟩).cwd ∧
          ((onTaskStatus ev s).tasks.get ⟨i, hi2⟩).shell = (s.tasks.get ⟨i, hi⟩).shell ∧
          ((onTaskStatus ev s).tasks.get ⟨i, hi2⟩).createdAt = (s.tasks.get ⟨i, hi⟩).createdAt ∧
          ((onTaskStatus ev s).tasks.get ⟨i, hi2⟩).startedAt = (s.tasks.get ⟨i, hi⟩).startedAt ∧
          ((onTaskStatus ev s).tasks.get ⟨i, hi2⟩).finishedAt = (s.tasks.get ⟨i, hi⟩).finishedAt)) := by
  constructor
  · intro hne
    exact onTaskStatus_mismatch hne
  · intro hmatch
    rw [onTaskStatus_match hmatch]
    refine ⟨rfl, rfl, rfl, List.length_map s.tasks _, ?_⟩
    intro i hi hi2
    have hget := get_map_eq (fun t =>
      if t.id = ev.taskId then
        { t with status := ev.status, exitCode := ev.exitCode }
      else t) s.tasks i hi hi2
    constructor
    · intro hne2
      rw [hget, if_neg hne2]
    · intro heq2
      rw [hget, if_pos heq2]
      exact ⟨rfl, rfl, rfl, rfl, rfl, rfl, rfl, rfl, rfl, rfl⟩

/-- Witness for claim C9 at a concrete event and store. -/
theorem claim_C9_status_event_frame_witness :
    (onTaskStatus
      { taskId := "t1", threadId := "th1", status := "Succeeded", exitCode := some 0 }
      { tasks := [{ id := "t1", threadId := "th1", command := "echo a", cwd := "C:/w",
                    shell := "powershell", status := "Running", createdAt := 5,
                    startedAt := some 6, finishedAt := none, exitCode := none },
                  { id := "t2", threadId := "th1", command := "echo b", cwd := "C:/w",
                    shell := "powershell", status := "Queued", createdAt := 7,
                    startedAt := none, finishedAt := none, exitCode := none }],
        activeThreadId := "th1", selectedTaskId := "t1", taskLogs := [],
        statusText := "Ready" }).taskLogs = [] ∧
    ((onTaskStatus
      { taskId := "t1", threadId := "th1", status := "Succeeded", exitCode := some 0 }
      { tasks := [{ id := "t1", threadId := "th1", command := "echo a", cwd := "C:/w",
                    shell := "powershell", status := "Running", createdAt := 5,
                    startedAt := some 6, finishedAt := none, exitCode := none },
                  { id := "t2", threadId := "th1", command := "echo b", cwd := "C:/w",
                    shell := "powershell", status := "Queued", createdAt := 7,
                    startedAt := none, finishedAt := none, exitCode := none }],
        activeThreadId := "th1", selectedTaskId := "t1", taskLogs := [],
        statusText := "Ready" }).tasks.length = 2) := by
  have h := (claim_C9_status_event_frame
    { taskId := "t1", threadId := "th1", status := "Succeeded", exitCode := some 0 }
    { tasks := [{ id := "t1", threadId := "th1", command := "echo a", cwd := "C:/w",
                  shell := "powershell", status := "Running", createdAt := 5,
                  startedAt := some 6, finishedAt := none, exitCode := none },
                { id := "t2", threadId := "th1", command := "echo b", cwd := "C:/w",
                  shell := "powershell", status := "Queued", createdAt := 7,
                  startedAt := none, finishedAt := none, exitCode := none }],
      activeThreadId := "th1", selectedTaskId := "t1", taskLogs := [],
      statusText := "Ready" }).2 rfl
  exact ⟨h.1, h.2.2.2.1⟩

/-- Claim C10: the `task:stdout` and `task:stderr` handlers of
`state/app-store.ts` append a `TaskLogRecord` only for events whose
`threadId` equals the active thread and whose `taskId` equals the selected
task id, which defaults to the event's task id when empty because the
source computes it with the JavaScript falsy-or idiom; every event failing either check is
dropped with no state change, so every record ever appended carries the
event's task id and, when a task is selected, that selected id — live log
lines of non-selected tasks are never retained.  The `TaskLogRecord` itself
has no thread-id field; the thread check is on the event. -/
theorem claim_C10_log_event_filter (now : Nat) (rand : String)
    (ev : TaskLogEvent) (s : StoreState) :
    (ev.threadId ≠ s.activeThreadId → onTaskLog now rand ev s = s) ∧
    (s.selectedTaskId ≠ "" → ev.taskId ≠ s.selectedTaskId →
      onTaskLog now rand ev s = s) ∧
    (ev.threadId = s.activeThreadId →
      (s.selectedTaskId = "" ∨ ev.taskId = s.selectedTaskId) →
      (onTaskLog now rand ev s).tasks = s.tasks ∧
      (onTaskLog now rand ev s).selectedTaskId = s.selectedTaskId ∧
      (onTaskLog now rand ev s).activeThreadId = s.activeThreadId ∧
      (onTaskLog now rand ev s).taskLogs = s.taskLogs ++
        [{ id := ev.taskId ++ "-" ++ toString now ++ "-" ++ rand,
           taskId := ev.taskId, stream := ev.stream, line := ev.line,
           createdAt := now }]) ∧
    (∀ l ∈ (onTaskLog now rand ev s).taskLogs,
      l ∈ s.taskLogs ∨
      (ev.threadId = s.activeThreadId ∧ l.taskId = ev.taskId ∧
        (s.selectedTaskId ≠ "" → l.taskId = s.selectedTaskId))) := by
  refine ⟨?_, ?_, ?_, ?_⟩
  · intro hne
    exact onTaskLog_mismatch hne
  · intro hsel hne
    by_cases hth : ev.threadId = s.activeThreadId
    · exact onTaskLog_notSelected hth hsel hne
    · exact onTaskLog_mismatch hth
  · intro hth hok
    have hok2 : (if s.selectedTaskId = "" then ev.taskId else s.selectedTaskId) = ev.taskId := by
      by_cases hsel : s.selectedTaskId = ""
      · rw [if_pos hsel]
      · rcases hok with he | he
        · exact absurd he hsel
        · rw [if_neg hsel]
          exact he.symm
    rw [onTaskLog_append hth hok2]
    exact ⟨rfl, rfl, rfl, rfl⟩
  · intro l hl
    by_cases hth : ev.threadId = s.activeThreadId
    · by_cases hsel : s.selectedTaskId = ""
      · have hok2 : (if s.selectedTaskId = "" then ev.taskId else s.selectedTaskId) =
            ev.taskId := by rw [if_pos hsel]
        rw [onTaskLog_append hth hok2] at hl
        rcases List.mem_append.mp hl with h1 | h2
        · exact Or.inl h1
        · right
          rw [List.mem_singleton.mp h2]
          exact ⟨hth, rfl, fun hc => absurd hsel hc⟩
      · by_cases heq : ev.taskId = s.selectedTaskId
        · have hok2 : (if s.selectedTaskId = "" then ev.taskId else s.selectedTaskId) =
              ev.taskId := by rw [if_neg hsel]; exact heq.symm
          rw [onTaskLog_append hth hok2] at hl
          rcases List.mem_append.mp hl with h1 | h2
          · exact Or.inl h1
          · right
            rw [List.mem_singleton.mp h2]
            exact ⟨hth, rfl, fun _ => heq⟩
        · rw [onTaskLog_notSelected hth hsel heq] at hl
          exact Or.inl hl
    · rw [onTaskLog_mismatch hth] at hl
      exact Or.inl hl

/-- Witness for claim C10 at concrete events: a matching event appends one
record; an event for a non-selected task is dropped. -/
theorem claim_C10_log_event_filter_witness :
    (onTaskLog 9 "r" { taskId := "t1", threadId := "th1", stream := "stdout", line := "A" }
      { tasks := [], activeThreadId := "th1", selectedTaskId := "t1",
        taskLogs := [], statusText := "Ready" }).taskLogs =
      [{ id := "t1" ++ "-" ++ toString 9 ++ "-" ++ "r", taskId := "t1",
         stream := "stdout", line := "A", createdAt := 9 }] ∧
    onTaskLog 9 "r" { taskId := "t2", threadId := "th1", stream := "stdout", line := "B" }
      { tasks := [], activeThreadId := "th1", selectedTaskId := "t1",
        taskLogs := [], statusText := "Ready" } =
      { tasks := [], activeThreadId := "th1", selectedTaskId := "t1",
        taskLogs := [], statusText := "Ready" } := by
  have h1 := (claim_C10_log_event_filter 9 "r"
    { taskId := "t1", threadId := "th1", stream := "stdout", line := "A" }
    { tasks := [], activeThreadId := "th1", selectedTaskId := "t1",
      taskLogs := [], statusText := "Ready" }).2.2.1 rfl (Or.inr rfl)
  have h2 := (claim_C10_log_event_filter 9 "r"
    { taskId := "t2", threadId := "th1", stream := "stdout", line := "B" }
    { tasks := [], activeThreadId := "th1", selectedTaskId := "t1",
      taskLogs := [], statusText := "Ready" }).2.1 (by decide) (by decide)
  exact ⟨h1.2.2.2, h2⟩

end CodexStore
